import Mathlib

/-!
Painting application: the drawing session of `paint.cc`.

A shallow embedding of the event handlers of `src/paint.cc` and of the
functions they call, followed by theorems about undo, shape commit, brush
dabs, brush size, the colour palette, the hue conversion and the circle loop.

Modelling decisions, about the SDL collaborator and the machine arithmetic,
none about the program's own control flow:

* The canvas texture is a grid of `SCREEN_WIDTH x SCREEN_HEIGHT` pixels; a
  pixel outside the grid does not exist, which is how SDL clips.
* Every drawing site of the program sets the draw colour right before it
  draws, with alpha 255 and the default blend mode, so a primitive takes its
  colour as an argument and overwrites the pixels it covers.  A texture copy
  (`SDL_RenderCopy` of a full-size texture whose pixels are opaque)
  overwrites the whole canvas.
* Which pixels `SDL_RenderDrawLine` and `SDL_RenderDrawRect` cover is the
  rendering library's business: it is a parameter (`Raster`) and every
  theorem holds for every rasteriser.
* What the program reads from its environment while handling one event (the
  millisecond clock, the bitmap file) is the `Env` that comes with the event.
* `brushSize` is a C++ `int`: `brushSize += 2` is taken modulo 2^32 (two's
  complement).  Pointer coordinates are window-relative and small; arithmetic
  on them is exact.
* `hueToRGB` computes in `double`: a `double` is the rational it denotes and
  every arithmetic operation rounds its exact result to the nearest value
  with a 53-bit significand, ties to even (`roundDouble`, the IEEE 754
  default); `fmod` and `fabs` are exact.  All values stay far from overflow
  and from the subnormal range.
* The loop variables of `drawCircle` and the coordinates it plots are C++
  `int`s: every operation on them is taken modulo 2^32 as well.
* Next to the pixels the session keeps the list of render calls issued with
  the canvas as target (`calls`), so that theorems can count canvas writes.
-/

namespace Paint

/-! ## Data model -/

/-- Screen dimensions (lines 11-12). -/
abbrev SCREEN_WIDTH : Nat := 800

/-- Screen height in pixels. -/
abbrev SCREEN_HEIGHT : Nat := 600

/-- An `SDL_Color`: four `Uint8` channels. -/
structure SDL_Color where
  r : Nat
  g : Nat
  b : Nat
  a : Nat
deriving DecidableEq, Repr

/-- An `SDL_Point`. -/
structure SDL_Point where
  x : Int
  y : Int
deriving DecidableEq, Repr

/-- An `SDL_Rect`. -/
structure SDL_Rect where
  x : Int
  y : Int
  w : Int
  h : Int
deriving DecidableEq, Repr

/-- Tools available for drawing (line 25). -/
inductive Tool where
  | TOOL_BRUSH
  | TOOL_ERASER
  | TOOL_LINE
  | TOOL_RECTANGLE
  | TOOL_CIRCLE
deriving DecidableEq, Repr

/-- Colour palette button (lines 29-32). -/
structure ColorButton where
  rect : SDL_Rect
  color : SDL_Color
deriving DecidableEq, Repr

/-- The pixel contents of the canvas texture, and of a snapshot surface. -/
abbrev Canvas := Fin SCREEN_WIDTH → Fin SCREEN_HEIGHT → SDL_Color

/-- A render call issued while the canvas texture is the render target. -/
inductive RenderCall where
  | fillRect (rect : SDL_Rect) (color : SDL_Color)
  | drawLine (x1 y1 x2 y2 : Int) (color : SDL_Color)
  | drawRect (rect : SDL_Rect) (color : SDL_Color)
  | drawPoint (x y : Int) (color : SDL_Color)
  | clear (color : SDL_Color)
  | copy (src : Canvas)

/-- Pixel coverage of the two outline primitives of the rendering library:
`line x1 y1 x2 y2 i j` tells whether `SDL_RenderDrawLine` from `(x1, y1)` to
`(x2, y2)` touches pixel `(i, j)`, `rect r i j` whether `SDL_RenderDrawRect`
of `r` does. -/
structure Raster where
  line : Int → Int → Int → Int → Int → Int → Bool
  rect : SDL_Rect → Int → Int → Bool

/-- Overwrite the covered pixels with one colour. -/
def paintPixels (cover : Int → Int → Bool) (color : SDL_Color) (cv : Canvas) : Canvas :=
  fun i j => if cover i j then color else cv i j

/-- The pixels of the canvas after one render call. -/
def applyCall (R : Raster) (cv : Canvas) : RenderCall → Canvas
  | .fillRect rect color =>
      paintPixels (fun i j => decide (rect.x ≤ i ∧ i < rect.x + rect.w ∧
                                        rect.y ≤ j ∧ j < rect.y + rect.h)) color cv
  | .drawLine x1 y1 x2 y2 color => paintPixels (R.line x1 y1 x2 y2) color cv
  | .drawRect rect color => paintPixels (R.rect rect) color cv
  | .drawPoint x y color => paintPixels (fun i j => decide (i = x ∧ j = y)) color cv
  | .clear color => fun _ _ => color
  | .copy src => src

/-- The global variables of the program (lines 15-45), with the canvas
texture as its pixels, the render calls issued on it, the lines written to
`std::cout` and the `quit` flag of `main`. -/
structure Session where
  canvas : Canvas
  calls : List RenderCall
  brushSize : Int
  currentColor : SDL_Color
  rainbowMode : Bool
  currentTool : Tool
  colorPalette : List ColorButton
  undoStack : List Canvas
  isDrawing : Bool
  drawingShape : Bool
  startPoint : SDL_Point
  currentPoint : SDL_Point
  console : List String
  quit : Bool

/-- Key symbols told apart by the `switch` of the key handler. -/
inductive Keycode where
  | SDLK_ESCAPE
  | SDLK_1
  | SDLK_2
  | SDLK_3
  | SDLK_4
  | SDLK_5
  | SDLK_m
  | SDLK_PLUS
  | SDLK_KP_PLUS
  | SDLK_MINUS
  | SDLK_KP_MINUS
  | SDLK_s
  | SDLK_o
  | SDLK_u
  | SDLK_c
  | other
deriving DecidableEq, Repr

/-- Events delivered by `SDL_PollEvent`. -/
inductive Event where
  | SDL_QUIT
  | SDL_KEYDOWN (sym : Keycode)
  | SDL_MOUSEBUTTONDOWN (button : Nat) (x y : Int)
  | SDL_MOUSEMOTION (x y : Int)
  | SDL_MOUSEBUTTONUP (button : Nat) (x y : Int)
  | other
deriving DecidableEq, Repr

/-- The left mouse button. -/
abbrev SDL_BUTTON_LEFT : Nat := 1

/-- What the handlers read from outside the program while they handle one
event: `ticks` is the value of `SDL_GetTicks()`, `bmp` the picture that
`SDL_LoadBMP("canvas.bmp")` yields, stretched to the canvas (`none` when the
file cannot be loaded). -/
structure Env where
  ticks : Nat
  bmp : Option Canvas

/-- White, the background and eraser colour. -/
def white : SDL_Color := ⟨255, 255, 255, 255⟩

/-- Issue one render call on the canvas texture. -/
def render (R : Raster) (s : Session) (call : RenderCall) : Session :=
  { s with canvas := applyCall R s.canvas call, calls := s.calls ++ [call] }

/-! ## Integer and floating-point helpers -/

/-- A value reduced to the range of a 32-bit `int`. -/
def wrapInt32 (n : Int) : Int := (n + 2147483648) % 4294967296 - 2147483648

/-- Rounding toward zero, as a conversion from `double` to an integer does. -/
def truncQ (q : ℚ) : Int := if 0 ≤ q then ⌊q⌋ else ⌈q⌉

/-- The C library function `fmod`: the remainder of a truncated division,
which is exact in floating point. -/
def fmod (a b : ℚ) : ℚ := a - b * (truncQ (a / b) : ℚ)

/-- The cast `static_cast<Uint8>` of a `double`. -/
def toUint8 (q : ℚ) : Nat := (truncQ q).toNat % 256

/-- The nearest integer, the even one of the two when they are equally near. -/
def roundHalfEven (t : ℚ) : Int :=
  if t - ⌊t⌋ < 1 / 2 then ⌊t⌋
  else if 1 / 2 < t - ⌊t⌋ then ⌊t⌋ + 1
  else if ⌊t⌋ % 2 = 0 then ⌊t⌋ else ⌊t⌋ + 1

/-- The `double` nearest to a real number: with `e` the binary exponent of
`q`, the multiple of `2 ^ (e - 52)` nearest to `q`, ties to even. -/
def roundDouble (q : ℚ) : ℚ :=
  if q = 0 then 0
  else roundHalfEven (q / (2 : ℚ) ^ (Int.log 2 |q| - 52)) * (2 : ℚ) ^ (Int.log 2 |q| - 52)

/-! ## Colour model -/

/-- Convert a hue (0-360) to a colour using full saturation and brightness
(lines 365-382); `hue` is the value of the `double` argument and every
`double` operation rounds. -/
def hueToRGB (hue : ℚ) : SDL_Color :=
  let s : ℚ := 1
  let v : ℚ := 1
  let c : ℚ := roundDouble (v * s)
  let x : ℚ :=
    roundDouble (c * roundDouble (1 - |roundDouble (fmod (roundDouble (hue / 60)) 2 - 1)|))
  let m : ℚ := roundDouble (v - c)
  let rgb : ℚ × ℚ × ℚ :=
    if hue < 60 then (c, x, 0)
    else if hue < 120 then (x, c, 0)
    else if hue < 180 then (0, c, x)
    else if hue < 240 then (0, x, c)
    else if hue < 300 then (x, 0, c)
    else (c, 0, x)
  ⟨toUint8 (roundDouble (roundDouble (rgb.1 + m) * 255)),
   toUint8 (roundDouble (roundDouble (rgb.2.1 + m) * 255)),
   toUint8 (roundDouble (roundDouble (rgb.2.2 + m) * 255)), 255⟩

/-- The ten palette colours (lines 302-307). -/
def paletteColors : List SDL_Color :=
  [⟨255, 0, 0, 255⟩, ⟨0, 255, 0, 255⟩, ⟨0, 0, 255, 255⟩,
   ⟨255, 255, 0, 255⟩, ⟨255, 0, 255, 255⟩, ⟨0, 255, 255, 255⟩,
   ⟨128, 0, 128, 255⟩, ⟨255, 165, 0, 255⟩, ⟨0, 128, 128, 255⟩,
   ⟨128, 128, 0, 255⟩]

/-- The palette built by `initColorPalette` (lines 299-313): one button per
colour, `startX` advancing by `size + spacing` after each. -/
def initColorPalette : List ColorButton :=
  let startY : Int := 10
  let size : Int := 40
  let spacing : Int := 10
  (paletteColors.foldl
    (fun (st : List ColorButton × Int) col =>
      (st.1 ++ [{ rect := ⟨st.2, startY, size, size⟩, color := col }], st.2 + (size + spacing)))
    ([], 10)).1

/-- The body of the `for` loop of `handleColorSelection` (lines 330-334). -/
def selectIfHit (x y : Int) (s : Session) (btn : ColorButton) : Session :=
  if x ≥ btn.rect.x ∧ x ≤ btn.rect.x + btn.rect.w ∧
     y ≥ btn.rect.y ∧ y ≤ btn.rect.y + btn.rect.h then
    { s with currentColor := btn.color, rainbowMode := false }
  else s

/-- Pick the palette colour under `(x, y)`, if any (lines 327-336). -/
def handleColorSelection (s : Session) (x y : Int) : Session :=
  s.colorPalette.foldl (selectIfHit x y) s

/-! ## Undo history -/

/-- Save the current canvas state to the undo stack (lines 339-345). -/
def saveCanvasState (s : Session) : Session :=
  { s with undoStack := s.undoStack ++ [s.canvas] }

/-- Undo the last drawing action by restoring the canvas from the most recent
snapshot (lines 348-362). -/
def undoLastAction (R : Raster) (s : Session) : Session :=
  match s.undoStack.getLast? with
  | some backup =>
      let s1 := { s with undoStack := s.undoStack.dropLast }
      let s2 := render R s1 (.copy backup)
      { s2 with console := s2.console ++ ["Undo performed.\n"] }
  | none => { s with console := s.console ++ ["Nothing to undo.\n"] }

/-- Clear the canvas (lines 491-501). -/
def clearCanvas (R : Raster) (s : Session) : Session :=
  let s1 := render R s (.clear ⟨255, 255, 255, 255⟩)
  { s1 with undoStack := [], console := s1.console ++ ["Canvas cleared.\n"] }

/-! ## Shape geometry -/

/-- The eight `SDL_RenderDrawPoint` calls of one iteration of `drawCircle`
(lines 389-396), for the loop variables `x` and `y`. -/
def circlePoints (centerX centerY : Int) (x y : Int) : List SDL_Point :=
  [⟨wrapInt32 (centerX + x), wrapInt32 (centerY + y)⟩,
   ⟨wrapInt32 (centerX + y), wrapInt32 (centerY + x)⟩,
   ⟨wrapInt32 (centerX - y), wrapInt32 (centerY + x)⟩,
   ⟨wrapInt32 (centerX - x), wrapInt32 (centerY + y)⟩,
   ⟨wrapInt32 (centerX - x), wrapInt32 (centerY - y)⟩,
   ⟨wrapInt32 (centerX - y), wrapInt32 (centerY - x)⟩,
   ⟨wrapInt32 (centerX + y), wrapInt32 (centerY - x)⟩,
   ⟨wrapInt32 (centerX + x), wrapInt32 (centerY - y)⟩]

/-- The rest of the loop body of `drawCircle` (lines 397-404): the values of
`x`, `y` and `err` after `y++` and the two `if`s. -/
def drawCircleStep (x y err : Int) : Int × Int × Int :=
  let y1 := wrapInt32 (y + 1)
  let err1 := if err ≤ 0 then wrapInt32 (err + wrapInt32 (wrapInt32 (2 * y1) + 1)) else err
  let x1 := if err1 > 0 then wrapInt32 (x - 1) else x
  let err2 := if err1 > 0 then wrapInt32 (err1 - wrapInt32 (wrapInt32 (2 * x1) + 1)) else err1
  (x1, y1, err2)

/-- The loop of `drawCircle` (lines 388-405) from the values `x`, `y`, `err`
at its head: the points plotted, in order, if the loop ends within `fuel`
iterations, `none` if it is still running then. -/
def drawCircleLoop (centerX centerY : Int) : Nat → Int → Int → Int → Option (List SDL_Point)
  | 0, x, y, _ => if x ≥ y then none else some []
  | fuel + 1, x, y, err =>
    if x ≥ y then
      (drawCircleLoop centerX centerY fuel (drawCircleStep x y err).1 (drawCircleStep x y err).2.1
        (drawCircleStep x y err).2.2).map (fun rest => circlePoints centerX centerY x y ++ rest)
    else some []

/-- The same loop, recording the loop variables `(x, y, err)` at the head of
every iteration that plots. -/
def drawCircleTrace : Nat → Int → Int → Int → Option (List (Int × Int × Int))
  | 0, x, y, _ => if x ≥ y then none else some []
  | fuel + 1, x, y, err =>
    if x ≥ y then
      (drawCircleTrace fuel (drawCircleStep x y err).1 (drawCircleStep x y err).2.1
        (drawCircleStep x y err).2.2).map (fun rest => (x, y, err) :: rest)
    else some []

/-- Simple circle-drawing function (lines 385-406): the points it plots.  For
a radius in the range of `int` the loop ends within `radius + 1` iterations
(`drawCircle_ends`), so the fuel never runs out. -/
def drawCircle (centerX centerY radius : Int) : List SDL_Point :=
  (drawCircleLoop centerX centerY (radius.toNat + 1) radius 0 0).getD []

/-- The `switch (currentTool)` shared by `drawPreviewShape` (lines 412-433)
and `commitShape` (lines 441-462): the render calls for the shape of `tool`
between the two points.  The radius is `static_cast<int>(std::sqrt(n))` for a
non-negative integer `n`, the integer square root. -/
def shapeCalls (tool : Tool) (startPoint currentPoint : SDL_Point) (color : SDL_Color) :
    List RenderCall :=
  match tool with
  | .TOOL_LINE =>
      [.drawLine startPoint.x startPoint.y currentPoint.x currentPoint.y color]
  | .TOOL_RECTANGLE =>
      [.drawRect ⟨min startPoint.x currentPoint.x, min startPoint.y currentPoint.y,
                  |startPoint.x - currentPoint.x|, |startPoint.y - currentPoint.y|⟩ color]
  | .TOOL_CIRCLE =>
      let radius : Int :=
        Int.ofNat (Nat.sqrt ((currentPoint.x - startPoint.x) * (currentPoint.x - startPoint.x) +
                             (currentPoint.y - startPoint.y) * (currentPoint.y - startPoint.y)).toNat)
      (drawCircle startPoint.x startPoint.y radius).map (fun p => .drawPoint p.x p.y color)
  | _ => []

/-- Commit the previewed shape to the canvas texture (lines 438-464). -/
def commitShape (R : Raster) (s : Session) : Session :=
  (shapeCalls s.currentTool s.startPoint s.currentPoint
    ⟨s.currentColor.r, s.currentColor.g, s.currentColor.b, 255⟩).foldl (render R) s

/-! ## Event handlers of `main` -/

/-- The block guarded by `currentTool == TOOL_BRUSH || currentTool ==
TOOL_ERASER`, the same in the button-down handler (lines 173-187) and in the
motion handler (lines 194-208): one square dab at `(x, y)`. -/
def brushDab (R : Raster) (env : Env) (s : Session) (x y : Int) : Session :=
  if s.currentTool = .TOOL_BRUSH ∨ s.currentTool = .TOOL_ERASER then
    let s1 :=
      if s.currentTool = .TOOL_BRUSH ∧ s.rainbowMode = true then
        { s with currentColor := hueToRGB ((env.ticks % 360 : Nat) : ℚ) }
      else s
    let drawColor : SDL_Color :=
      if s.currentTool = .TOOL_BRUSH then
        ⟨s1.currentColor.r, s1.currentColor.g, s1.currentColor.b, 255⟩
      else ⟨255, 255, 255, 255⟩
    let brushRect : SDL_Rect :=
      ⟨x - Int.tdiv s.brushSize 2, y - Int.tdiv s.brushSize 2, s.brushSize, s.brushSize⟩
    render R s1 (.fillRect brushRect drawColor)
  else s

/-- The `SDL_KEYDOWN` handler (lines 88-159). -/
def handleKeyDown (R : Raster) (env : Env) (s : Session) : Keycode → Session
  | .SDLK_ESCAPE => { s with quit := true }
  | .SDLK_1 => { s with currentTool := .TOOL_BRUSH, console := s.console ++ ["Brush selected\n"] }
  | .SDLK_2 => { s with currentTool := .TOOL_ERASER, console := s.console ++ ["Eraser selected\n"] }
  | .SDLK_3 => { s with currentTool := .TOOL_LINE, console := s.console ++ ["Line selected\n"] }
  | .SDLK_4 =>
      { s with currentTool := .TOOL_RECTANGLE, console := s.console ++ ["Rectangle selected\n"] }
  | .SDLK_5 => { s with currentTool := .TOOL_CIRCLE, console := s.console ++ ["Circle selected\n"] }
  | .SDLK_m =>
      { s with rainbowMode := !s.rainbowMode,
               console := s.console ++
                 [if !s.rainbowMode then "Rainbow mode: ON\n" else "Rainbow mode: OFF\n"] }
  | .SDLK_PLUS => { s with brushSize := wrapInt32 (s.brushSize + 2) }
  | .SDLK_KP_PLUS => { s with brushSize := wrapInt32 (s.brushSize + 2) }
  | .SDLK_MINUS => if s.brushSize > 2 then { s with brushSize := s.brushSize - 2 } else s
  | .SDLK_KP_MINUS => if s.brushSize > 2 then { s with brushSize := s.brushSize - 2 } else s
  | .SDLK_s => { s with console := s.console ++ ["Canvas saved as canvas.bmp\n"] }
  | .SDLK_o =>
      match env.bmp with
      | none => s
      | some loaded =>
          let s1 := render R s (.copy loaded)
          { s1 with console := s1.console ++ ["Canvas loaded from canvas.bmp\n"] }
  | .SDLK_u => undoLastAction R s
  | .SDLK_c => clearCanvas R s
  | .other => s

/-- The `SDL_MOUSEBUTTONDOWN` handler (lines 160-189). -/
def handleMouseButtonDown (R : Raster) (env : Env) (s : Session) (button : Nat) (x y : Int) :
    Session :=
  if button = SDL_BUTTON_LEFT then
    let s1 := handleColorSelection s x y
    let s2 := { s1 with
      isDrawing := true
      startPoint := ⟨x, y⟩
      currentPoint := ⟨x, y⟩
      drawingShape := decide (s1.currentTool = .TOOL_LINE ∨ s1.currentTool = .TOOL_RECTANGLE ∨
                              s1.currentTool = .TOOL_CIRCLE) }
    brushDab R env s2 x y
  else s

/-- The `SDL_MOUSEMOTION` handler (lines 190-210). -/
def handleMouseMotion (R : Raster) (env : Env) (s : Session) (x y : Int) : Session :=
  if s.isDrawing = true then
    brushDab R env { s with currentPoint := ⟨x, y⟩ } x y
  else s

/-- The `SDL_MOUSEBUTTONUP` handler (lines 211-222). -/
def handleMouseButtonUp (R : Raster) (s : Session) (button : Nat) : Session :=
  if button = SDL_BUTTON_LEFT then
    let s1 := { s with isDrawing := false }
    let s2 := if s1.drawingShape = true then { commitShape R s1 with drawingShape := false } else s1
    saveCanvasState s2
  else s

/-- One turn of the inner event loop of `main` (lines 83-223). -/
def handleEvent (R : Raster) (s : Session) (input : Env × Event) : Session :=
  match input.2 with
  | .SDL_QUIT => { s with quit := true }
  | .SDL_KEYDOWN sym => handleKeyDown R input.1 s sym
  | .SDL_MOUSEBUTTONDOWN button x y => handleMouseButtonDown R input.1 s button x y
  | .SDL_MOUSEMOTION x y => handleMouseMotion R input.1 s x y
  | .SDL_MOUSEBUTTONUP button _ _ => handleMouseButtonUp R s button
  | .other => s

/-- The session after a sequence of events, each with its environment. -/
def run (R : Raster) (s : Session) (inputs : List (Env × Event)) : Session :=
  inputs.foldl (handleEvent R) s

/-- Create the canvas texture and fill it with white (lines 279-286). -/
def initCanvas (R : Raster) (s : Session) : Session :=
  render R s (.clear ⟨255, 255, 255, 255⟩)

/-- The session when `main` enters its event loop: the initialisers of the
globals (lines 15-45), then `initCanvas`, `initColorPalette` and the
instructions printed to the console (lines 67-78). -/
def initialSession (R : Raster) : Session :=
  let globals : Session :=
    { canvas := fun _ _ => ⟨0, 0, 0, 0⟩
      calls := []
      brushSize := 10
      currentColor := ⟨0, 0, 0, 255⟩
      rainbowMode := false
      currentTool := .TOOL_BRUSH
      colorPalette := []
      undoStack := []
      isDrawing := false
      drawingShape := false
      startPoint := ⟨0, 0⟩
      currentPoint := ⟨0, 0⟩
      console := []
      quit := false }
  { initCanvas R globals with
    colorPalette := initColorPalette
    console :=
      ["=== Advanced Paint Instructions ===\n",
       "Tools: 1: Brush | 2: Eraser | 3: Line | 4: Rectangle | 5: Circle\n",
       "Toggle Rainbow Mode: M\n",
       "Adjust Brush Size: +/-\n",
       "Save Canvas: S | Load Canvas: O\n",
       "Undo: U | Clear Canvas: C\n",
       "Exit: ESC\n",
       "===================================\n"] }

/-- A rasteriser to instantiate theorems with: a line covers the grid points
of its segment, a rectangle outline the border of `[x, x+w) x [y, y+h)`. -/
def sampleRaster : Raster where
  line := fun x1 y1 x2 y2 i j =>
    decide ((i - x1) * (y2 - y1) = (j - y1) * (x2 - x1) ∧
            min x1 x2 ≤ i ∧ i ≤ max x1 x2 ∧ min y1 y2 ≤ j ∧ j ≤ max y1 y2)
  rect := fun r i j =>
    decide (r.x ≤ i ∧ i < r.x + r.w ∧ r.y ≤ j ∧ j < r.y + r.h ∧
            (i = r.x ∨ i = r.x + r.w - 1 ∨ j = r.y ∨ j = r.y + r.h - 1))

/-- An environment to instantiate theorems with. -/
def sampleEnv : Env := ⟨0, none⟩

/-- A left click at `(100, 100)`: button down, then button up. -/
def clickAt100 : List (Env × Event) :=
  [(sampleEnv, .SDL_MOUSEBUTTONDOWN SDL_BUTTON_LEFT 100 100),
   (sampleEnv, .SDL_MOUSEBUTTONUP SDL_BUTTON_LEFT 100 100)]

/-- The pixel `(100, 100)` of the canvas. -/
def pixel100 (cv : Canvas) : SDL_Color := cv ⟨100, by decide⟩ ⟨100, by decide⟩

/-- The motion events of a drag: one `SDL_MOUSEMOTION` per point, each with
the environment it is handled in. -/
def motionInputs (moves : List (Env × SDL_Point)) : List (Env × Event) :=
  moves.map (fun m => (m.1, Event.SDL_MOUSEMOTION m.2.x m.2.y))

/-- The last point of a drag that starts at `p0`: the point of the last
motion event, `p0` when there is none. -/
def finalPoint (p0 : SDL_Point) (moves : List (Env × SDL_Point)) : SDL_Point :=
  moves.foldl (fun _ m => m.2) p0

/-- The three shape tools. -/
def isShapeTool (tool : Tool) : Prop :=
  tool = .TOOL_LINE ∨ tool = .TOOL_RECTANGLE ∨ tool = .TOOL_CIRCLE

instance (tool : Tool) : Decidable (isShapeTool tool) := by
  unfold isShapeTool; infer_instance

/-- The two tools that paint while the pointer moves. -/
def isBrushTool (tool : Tool) : Prop :=
  tool = .TOOL_BRUSH ∨ tool = .TOOL_ERASER

instance (tool : Tool) : Decidable (isBrushTool tool) := by
  unfold isBrushTool; infer_instance

/-- The events of a drag in progress: left button down at `p0`, then the
motion events, and nothing else. -/
def dragInputs (e0 : Env) (p0 : SDL_Point) (moves : List (Env × SDL_Point)) :
    List (Env × Event) :=
  (e0, Event.SDL_MOUSEBUTTONDOWN SDL_BUTTON_LEFT p0.x p0.y) :: motionInputs moves

/-- A completed drawing action: a drag closed by a left button up. -/
def actionInputs (e0 : Env) (p0 : SDL_Point) (moves : List (Env × SDL_Point))
    (eu : Env) (up : SDL_Point) : List (Env × Event) :=
  dragInputs e0 p0 moves ++ [(eu, Event.SDL_MOUSEBUTTONUP SDL_BUTTON_LEFT up.x up.y)]

/-- A session with the Line tool selected: the initial session after key 3. -/
def lineSession : Session :=
  handleEvent sampleRaster (initialSession sampleRaster) (sampleEnv, Event.SDL_KEYDOWN Keycode.SDLK_3)

/-- Two motion events, to `(150, 120)` and then to `(200, 180)`. -/
def twoMoves : List (Env × SDL_Point) :=
  [(sampleEnv, ⟨150, 120⟩), (sampleEnv, ⟨200, 180⟩)]

/-- The `+` keys of the main keyboard and of the keypad. -/
def isPlusInput (input : Env × Event) : Bool :=
  match input.2 with
  | .SDL_KEYDOWN .SDLK_PLUS => true
  | .SDL_KEYDOWN .SDLK_KP_PLUS => true
  | _ => false

/-- The `+` key pressed `1073741819` times. -/
def manyPlus : List (Env × Event) :=
  List.replicate 1073741819 (sampleEnv, Event.SDL_KEYDOWN Keycode.SDLK_PLUS)

/-- One `+` followed by seven `-`, the last ones at the floor. -/
def plusThenMinus : List (Env × Event) :=
  (sampleEnv, Event.SDL_KEYDOWN Keycode.SDLK_PLUS) ::
    List.replicate 7 (sampleEnv, Event.SDL_KEYDOWN Keycode.SDLK_MINUS)

/-- The events a drag may see between button down and button up: motion
events and the key commands for tool selection (1-5), rainbow mode (M) and
brush size (plus and minus). -/
def isDragInput (input : Env × Event) : Bool :=
  match input.2 with
  | .SDL_MOUSEMOTION _ _ => true
  | .SDL_KEYDOWN sym =>
      decide (sym = .SDLK_1 ∨ sym = .SDLK_2 ∨ sym = .SDLK_3 ∨ sym = .SDLK_4 ∨ sym = .SDLK_5 ∨
              sym = .SDLK_m ∨ sym = .SDLK_PLUS ∨ sym = .SDLK_KP_PLUS ∨
              sym = .SDLK_MINUS ∨ sym = .SDLK_KP_MINUS)
  | _ => false

/-- The point of the last motion event of a sequence, `p0` when there is
none. -/
def lastMotionPoint (p0 : SDL_Point) (inputs : List (Env × Event)) : SDL_Point :=
  inputs.foldl
    (fun p input =>
      match input.2 with
      | .SDL_MOUSEMOTION x y => ⟨x, y⟩
      | _ => p)
    p0

/-- A Line drag from `(100, 100)` to `(200, 180)` during which key 1 selects
the Brush. -/
def toolSwitchDrag : List (Env × Event) :=
  [(sampleEnv, Event.SDL_MOUSEBUTTONDOWN SDL_BUTTON_LEFT 100 100),
   (sampleEnv, Event.SDL_MOUSEMOTION 200 180),
   (sampleEnv, Event.SDL_KEYDOWN Keycode.SDLK_1)]

/-- What a Line drag sees between button down and button up in the sample: a
motion event to `(200, 180)`, key 4 (Rectangle) and key M. -/
def keysDuringDrag : List (Env × Event) :=
  [(sampleEnv, Event.SDL_MOUSEMOTION 200 180),
   (sampleEnv, Event.SDL_KEYDOWN Keycode.SDLK_4),
   (sampleEnv, Event.SDL_KEYDOWN Keycode.SDLK_m)]

/-- The initial session with rainbow mode switched on by key M. -/
def rainbowSession : Session :=
  handleEvent sampleRaster (initialSession sampleRaster) (sampleEnv, Event.SDL_KEYDOWN Keycode.SDLK_m)

/-- An environment whose clock reads 380 ms, hue 20. -/
def envTicks380 : Env := ⟨380, none⟩

/-! ## Theorems -/

/-! ### Colour model -/

/-- An integer is its own nearest integer. -/
theorem roundHalfEven_intCast (m : Int) : roundHalfEven (m : ℚ) = m := by
  simp [roundHalfEven]

/-- An integer below `2 ^ 53` in absolute value is a `double`: rounding
leaves it as it is. -/
theorem roundDouble_intCast (n : Int) (h : |n| < 2 ^ 53) : roundDouble (n : ℚ) = n := by
  unfold roundDouble
  by_cases hn : (n : ℚ) = 0
  · simp [hn]
  · rw [if_neg hn]
    have habs : (0 : ℚ) < |(n : ℚ)| := abs_pos.mpr hn
    have hlt : |(n : ℚ)| < ((2 : ℕ) : ℚ) ^ (53 : ℤ) := by
      have h1 : ((|n| : ℤ) : ℚ) < ((2 ^ 53 : ℤ) : ℚ) := Int.cast_lt.mpr h
      rw [Int.cast_abs] at h1
      refine lt_of_lt_of_le h1 (le_of_eq ?_)
      norm_num
    have he : Int.log 2 |(n : ℚ)| < 53 :=
      (Int.lt_zpow_iff_log_lt (by norm_num) habs).mp hlt
    obtain ⟨k, hk⟩ : ∃ k : ℕ, Int.log 2 |(n : ℚ)| - 52 = -(k : ℤ) :=
      ⟨(52 - Int.log 2 |(n : ℚ)|).toNat, by omega⟩
    rw [hk]
    have hpow : (2 : ℚ) ^ (-(k : ℤ)) = ((2 : ℚ) ^ k)⁻¹ := by
      rw [zpow_neg, zpow_natCast]
    rw [hpow, div_inv_eq_mul]
    have hcast : (n : ℚ) * (2 : ℚ) ^ k = ((n * 2 ^ k : ℤ) : ℚ) := by push_cast; ring
    rw [hcast, roundHalfEven_intCast]
    push_cast
    field_simp

/-- C8: `hueToRGB` gives pure red at hue 0, yellow at 60, pure green at 120
and pure blue at 240, each with alpha 255. -/
theorem hueToRGB_primaries :
    hueToRGB 0 = ⟨255, 0, 0, 255⟩ ∧ hueToRGB 60 = ⟨255, 255, 0, 255⟩ ∧
    hueToRGB 120 = ⟨0, 255, 0, 255⟩ ∧ hueToRGB 240 = ⟨0, 0, 255, 255⟩ := by
  have r0 : roundDouble 0 = 0 := by simp [roundDouble]
  have r1 : roundDouble 1 = 1 := by simpa using roundDouble_intCast 1 (by norm_num)
  have r2 : roundDouble 2 = 2 := by simpa using roundDouble_intCast 2 (by norm_num)
  have r4 : roundDouble 4 = 4 := by simpa using roundDouble_intCast 4 (by norm_num)
  have rm : roundDouble (-1) = -1 := by simpa using roundDouble_intCast (-1) (by norm_num)
  have r255 : roundDouble 255 = 255 := by simpa using roundDouble_intCast 255 (by norm_num)
  refine ⟨?_, ?_, ?_, ?_⟩ <;>
    norm_num [hueToRGB, fmod, truncQ, toUint8, r0, r1, r2, r4, rm, r255] <;> rfl

/-- Rounding to `double` when the binary exponent `e` of the number is known:
the nearest multiple of `2 ^ (e - 52)`. -/
theorem roundDouble_of_exponent (q : ℚ) (e : ℤ) (hq : q ≠ 0) (h1 : (2 : ℚ) ^ e ≤ |q|)
    (h2 : |q| < (2 : ℚ) ^ (e + 1)) :
    roundDouble q = roundHalfEven (q / (2 : ℚ) ^ (e - 52)) * (2 : ℚ) ^ (e - 52) := by
  have hlog : Int.log 2 |q| = e := by
    apply le_antisymm
    · have := (Int.lt_zpow_iff_log_lt (b := 2) (by norm_num) (abs_pos.mpr hq)).mp
        (by exact_mod_cast h2)
      omega
    · exact (Int.zpow_le_iff_le_log (by norm_num) (abs_pos.mpr hq)).mp (by exact_mod_cast h1)
  simp [roundDouble, hq, hlog]

/-- A number less than one half away from an integer rounds to it. -/
theorem roundHalfEven_near (t : ℚ) (n : ℤ) (h1 : (n : ℚ) - 1 / 2 < t) (h2 : t < n + 1 / 2) :
    roundHalfEven t = n := by
  unfold roundHalfEven
  by_cases h : (n : ℚ) ≤ t
  · have hf : ⌊t⌋ = n := Int.floor_eq_iff.mpr ⟨h, by linarith⟩
    rw [hf, if_pos (by linarith)]
  · have hf : ⌊t⌋ = n - 1 := Int.floor_eq_iff.mpr ⟨by push_cast; linarith, by push_cast; linarith⟩
    rw [hf, if_neg (by push_cast; linarith), if_pos (by push_cast; linarith)]
    ring

/-- Half way between two integers the even one is taken. -/
theorem roundHalfEven_tie (n : ℤ) (hn : n % 2 = 0) : roundHalfEven ((n : ℚ) + 1 / 2) = n := by
  unfold roundHalfEven
  have hf : ⌊(n : ℚ) + 1 / 2⌋ = n := Int.floor_eq_iff.mpr ⟨by linarith, by linarith⟩
  rw [hf, if_neg (by norm_num), if_neg (by norm_num), if_pos hn]

/-- Rounding at work: at hue 20 the quotient `20 / 60` is not a `double`, the
green channel comes out just below 85 and is cut to 84. -/
theorem hueToRGB_twenty : hueToRGB 20 = ⟨255, 84, 0, 255⟩ := by
  have ha : roundDouble ((20 : ℚ) / 60) = 6004799503160661 / 18014398509481984 := by
    rw [roundDouble_of_exponent _ (-2) (by norm_num) (by norm_num [abs_of_pos])
      (by norm_num [abs_of_pos])]
    rw [roundHalfEven_near _ 6004799503160661 (by norm_num) (by norm_num)]
    norm_num
  have hf : fmod (6004799503160661 / 18014398509481984) 2 =
      6004799503160661 / 18014398509481984 := by
    have hfl : ⌊(6004799503160661 / 18014398509481984 : ℚ) / 2⌋ = 0 :=
      Int.floor_eq_iff.mpr ⟨by norm_num, by norm_num⟩
    unfold fmod truncQ
    rw [if_pos (by norm_num), hfl]
    norm_num
  have hd : roundDouble ((6004799503160661 / 18014398509481984 : ℚ) - 1) =
      -(3002399751580331 / 4503599627370496) := by
    rw [roundDouble_of_exponent _ (-1) (by norm_num) (by norm_num [abs_of_neg])
      (by norm_num [abs_of_neg])]
    have ht : ((6004799503160661 / 18014398509481984 : ℚ) - 1) / (2 : ℚ) ^ ((-1 : ℤ) - 52) =
        ((-6004799503160662 : ℤ) : ℚ) + 1 / 2 := by norm_num
    rw [ht, roundHalfEven_tie _ (by decide)]
    norm_num
  have hg : roundDouble (1 - |(-(3002399751580331 / 4503599627370496) : ℚ)|) =
      1501199875790165 / 4503599627370496 := by
    rw [roundDouble_of_exponent _ (-2) (by norm_num [abs_of_neg]) (by norm_num [abs_of_neg, abs_of_pos])
      (by norm_num [abs_of_neg, abs_of_pos])]
    rw [roundHalfEven_near _ 6004799503160660 (by norm_num [abs_of_neg]) (by norm_num [abs_of_neg])]
    norm_num
  have hc : roundDouble ((1 : ℚ) * 1) = 1 := by
    simpa using roundDouble_intCast 1 (by norm_num)
  have hx : roundDouble ((1 : ℚ) * (1501199875790165 / 4503599627370496)) =
      1501199875790165 / 4503599627370496 := by
    rw [roundDouble_of_exponent _ (-2) (by norm_num) (by norm_num [abs_of_pos])
      (by norm_num [abs_of_pos])]
    rw [roundHalfEven_near _ 6004799503160660 (by norm_num) (by norm_num)]
    norm_num
  have hm : roundDouble ((1 : ℚ) - 1) = 0 := by simp [roundDouble]
  have hx0 : roundDouble ((1501199875790165 / 4503599627370496 : ℚ) + 0) =
      1501199875790165 / 4503599627370496 := by
    rw [add_zero]; rw [one_mul] at hx; exact hx
  have h10 : roundDouble ((1 : ℚ) + 0) = 1 := by
    simpa using roundDouble_intCast 1 (by norm_num)
  have h00 : roundDouble ((0 : ℚ) + 0) = 0 := by simp [roundDouble]
  have h255 : roundDouble ((1 : ℚ) * 255) = 255 := by
    simpa using roundDouble_intCast 255 (by norm_num)
  have h0255 : roundDouble ((0 : ℚ) * 255) = 0 := by simp [roundDouble]
  have hv : roundDouble ((1501199875790165 / 4503599627370496 : ℚ) * 255) =
      5981343255101439 / 70368744177664 := by
    rw [roundDouble_of_exponent _ 6 (by norm_num) (by norm_num [abs_of_pos])
      (by norm_num [abs_of_pos])]
    rw [roundHalfEven_near _ 5981343255101439 (by norm_num) (by norm_num)]
    norm_num
  have hfl : ⌊(5981343255101439 / 70368744177664 : ℚ)⌋ = 84 :=
    Int.floor_eq_iff.mpr ⟨by norm_num, by norm_num⟩
  have h1 : (20 : ℚ) < 60 := by norm_num
  simp only [hueToRGB, ha, hf, hd, hg, hc, hx, hm, h1, if_true, hx0, h10, h00, h255, h0255, hv,
    toUint8, truncQ, hfl]
  norm_num
  exact ⟨rfl, rfl⟩

/-! ### Clear and undo -/

/-- C9: `clearCanvas` makes every pixel of the canvas white and empties the
undo stack, whatever the canvas and the stack were. -/
theorem clearCanvas_whitens_and_empties (R : Raster) (s : Session) :
    (∀ i j, (clearCanvas R s).canvas i j = white) ∧
    (clearCanvas R s).undoStack = [] ∧ (clearCanvas R s).undoStack.length = 0 := by
  refine ⟨fun i j => rfl, rfl, rfl⟩

/-- C10: on an empty undo stack `undoLastAction` leaves the canvas pixels and
every other variable as they are, the stack stays empty, no render call is
issued, and the only effect is the line "Nothing to undo." on the console. -/
theorem undoLastAction_empty (R : Raster) (s : Session) (h : s.undoStack = []) :
    undoLastAction R s = { s with console := s.console ++ ["Nothing to undo.\n"] } ∧
    (undoLastAction R s).canvas = s.canvas ∧
    (undoLastAction R s).undoStack = [] ∧
    (undoLastAction R s).calls = s.calls := by
  simp [undoLastAction, h]

/-- C10 at the initial session, whose undo stack is empty. -/
theorem undoLastAction_empty_witness :
    (initialSession sampleRaster).undoStack = [] ∧
    (undoLastAction sampleRaster (initialSession sampleRaster)).canvas =
      (initialSession sampleRaster).canvas ∧
    (undoLastAction sampleRaster (initialSession sampleRaster)).undoStack = [] :=
  ⟨rfl, (undoLastAction_empty sampleRaster (initialSession sampleRaster) rfl).2.1,
   (undoLastAction_empty sampleRaster (initialSession sampleRaster) rfl).2.2.1⟩

/-- C1, the code at the failing input: from the initial session (white
canvas, Brush, black) a click at `(100, 100)` paints a dab and pushes one
snapshot; the undo issued right after pops that snapshot, so the stack is one
entry shorter, but the canvas still shows the dab: pixel `(100, 100)` is
black, while it was white before the action. -/
theorem undo_after_click_keeps_dab :
    pixel100 (initialSession sampleRaster).canvas = white ∧
    (run sampleRaster (initialSession sampleRaster) clickAt100).undoStack.length = 1 ∧
    (undoLastAction sampleRaster
      (run sampleRaster (initialSession sampleRaster) clickAt100)).undoStack.length = 0 ∧
    pixel100 (undoLastAction sampleRaster
      (run sampleRaster (initialSession sampleRaster) clickAt100)).canvas = ⟨0, 0, 0, 255⟩ ∧
    (undoLastAction sampleRaster
      (run sampleRaster (initialSession sampleRaster) clickAt100)).canvas ≠
      (initialSession sampleRaster).canvas := by
  refine ⟨by decide, by decide, by decide, by decide, ?_⟩
  intro h
  have h2 := congrArg pixel100 h
  revert h2
  decide


/-! ### Palette -/

/-- The palette scan changes nothing but `currentColor` and `rainbowMode`. -/
theorem paletteScan_frame (x y : Int) (l : List ColorButton) (s : Session) :
    l.foldl (selectIfHit x y) s =
    { s with
      currentColor := (l.foldl (selectIfHit x y) s).currentColor
      rainbowMode := (l.foldl (selectIfHit x y) s).rainbowMode } := by
  induction l generalizing s with
  | nil => rfl
  | cons b l ih =>
    simp only [List.foldl_cons]
    rw [ih]
    unfold selectIfHit
    split <;> rfl

/-- Outside `currentColor` and `rainbowMode`, `handleColorSelection` is the
identity. -/
theorem handleColorSelection_frame (s : Session) (x y : Int) :
    handleColorSelection s x y =
      { s with currentColor := (handleColorSelection s x y).currentColor
               rainbowMode := (handleColorSelection s x y).rainbowMode } :=
  paletteScan_frame x y s.colorPalette s

/-- Once a colour `c` is selected with rainbow mode off, scanning buttons
whose hit ones all carry `c` keeps it so. -/
theorem paletteScan_keeps (x y : Int) (c : SDL_Color) (l : List ColorButton) (s : Session)
    (hl : ∀ b ∈ l, (x ≥ b.rect.x ∧ x ≤ b.rect.x + b.rect.w ∧
                    y ≥ b.rect.y ∧ y ≤ b.rect.y + b.rect.h) → b.color = c)
    (hs : s.currentColor = c ∧ s.rainbowMode = false) :
    (l.foldl (selectIfHit x y) s).currentColor = c ∧
    (l.foldl (selectIfHit x y) s).rainbowMode = false := by
  induction l generalizing s with
  | nil => exact hs
  | cons b l ih =>
    simp only [List.foldl_cons]
    apply ih _ (fun b2 hb2 => hl b2 (List.mem_cons_of_mem _ hb2))
    unfold selectIfHit
    split
    · next hit => exact ⟨hl b (List.mem_cons_self _ _) hit, rfl⟩
    · exact hs

/-- If some button of the list is hit and all hit buttons carry the colour
`c`, the scan ends with `c` selected and rainbow mode off. -/
theorem paletteScan_selects (x y : Int) (c : SDL_Color) (l : List ColorButton) (s : Session)
    (hl : ∀ b ∈ l, (x ≥ b.rect.x ∧ x ≤ b.rect.x + b.rect.w ∧
                    y ≥ b.rect.y ∧ y ≤ b.rect.y + b.rect.h) → b.color = c)
    (hex : ∃ b ∈ l, x ≥ b.rect.x ∧ x ≤ b.rect.x + b.rect.w ∧
                    y ≥ b.rect.y ∧ y ≤ b.rect.y + b.rect.h) :
    (l.foldl (selectIfHit x y) s).currentColor = c ∧
    (l.foldl (selectIfHit x y) s).rainbowMode = false := by
  induction l generalizing s with
  | nil => obtain ⟨b, hb, _⟩ := hex; cases hb
  | cons b l ih =>
    simp only [List.foldl_cons]
    by_cases hit : x ≥ b.rect.x ∧ x ≤ b.rect.x + b.rect.w ∧
                   y ≥ b.rect.y ∧ y ≤ b.rect.y + b.rect.h
    · apply paletteScan_keeps x y c l _ (fun b2 hb2 => hl b2 (List.mem_cons_of_mem _ hb2))
      simp only [selectIfHit, hit, and_self, if_true]
      exact ⟨hl b (List.mem_cons_self _ _) hit, trivial⟩
    · apply ih _ (fun b2 hb2 => hl b2 (List.mem_cons_of_mem _ hb2))
      obtain ⟨b2, hb2, hit2⟩ := hex
      rcases List.mem_cons.mp hb2 with h | h
      · subst h; exact absurd hit2 hit
      · exact ⟨b2, h, hit2⟩

/-- The buttons built by `initColorPalette`: the `k`-th is the 40 x 40 square
at `(10 + 50 k, 10)` with the `k`-th palette colour. -/
theorem initColorPalette_layout (b : ColorButton) (hb : b ∈ initColorPalette) :
    ∃ k : Nat, k < 10 ∧ b.rect = ⟨10 + 50 * (k : Int), 10, 40, 40⟩ ∧
      paletteColors.get? k = some b.color := by
  simp [initColorPalette, paletteColors] at hb
  rcases hb with h | h | h | h | h | h | h | h | h | h
  · exact ⟨0, by decide, by subst h; rfl, by subst h; rfl⟩
  · exact ⟨1, by decide, by subst h; rfl, by subst h; rfl⟩
  · exact ⟨2, by decide, by subst h; rfl, by subst h; rfl⟩
  · exact ⟨3, by decide, by subst h; rfl, by subst h; rfl⟩
  · exact ⟨4, by decide, by subst h; rfl, by subst h; rfl⟩
  · exact ⟨5, by decide, by subst h; rfl, by subst h; rfl⟩
  · exact ⟨6, by decide, by subst h; rfl, by subst h; rfl⟩
  · exact ⟨7, by decide, by subst h; rfl, by subst h; rfl⟩
  · exact ⟨8, by decide, by subst h; rfl, by subst h; rfl⟩
  · exact ⟨9, by decide, by subst h; rfl, by subst h; rfl⟩

/-- C7: with the palette built by `initColorPalette`, a click at a point of
the hit region of an entry (its rectangle, borders included) leaves rainbow
mode off, whatever it was, and the entry's colour selected: no other entry is
hit at that point. -/
theorem palette_click_selects (s : Session) (hp : s.colorPalette = initColorPalette)
    (btn : ColorButton) (hbtn : btn ∈ initColorPalette) (x y : Int)
    (hx : btn.rect.x ≤ x ∧ x ≤ btn.rect.x + btn.rect.w)
    (hy : btn.rect.y ≤ y ∧ y ≤ btn.rect.y + btn.rect.h) :
    (handleColorSelection s x y).rainbowMode = false ∧
    (handleColorSelection s x y).currentColor = btn.color := by
  have key := paletteScan_selects x y btn.color initColorPalette s
    (by
      intro b hb hit
      obtain ⟨k, hk, hrect, hcol⟩ := initColorPalette_layout b hb
      obtain ⟨k2, hk2, hrect2, hcol2⟩ := initColorPalette_layout btn hbtn
      rw [hrect] at hit
      rw [hrect2] at hx
      have hkk : k = k2 := by
        simp only at hit hx
        omega
      subst hkk
      rw [hcol] at hcol2
      exact Option.some.inj hcol2)
    ⟨btn, hbtn, hx.1, hx.2, hy.1, hy.2⟩
  unfold handleColorSelection
  rw [hp]
  exact ⟨key.2, key.1⟩

/-- C7 at the second palette entry (green) and the point `(75, 30)`, starting
with rainbow mode on. -/
theorem palette_click_selects_witness :
    (handleColorSelection { initialSession sampleRaster with rainbowMode := true } 75 30).rainbowMode
      = false ∧
    (handleColorSelection { initialSession sampleRaster with rainbowMode := true } 75 30).currentColor
      = ⟨0, 255, 0, 255⟩ :=
  palette_click_selects { initialSession sampleRaster with rainbowMode := true } rfl
    ⟨⟨60, 10, 40, 40⟩, ⟨0, 255, 0, 255⟩⟩ (by decide) 75 30 (by decide) (by decide)

/-! ### Frame lemmas of the handlers -/

theorem finalPoint_nil (p0 : SDL_Point) : finalPoint p0 [] = p0 := rfl

theorem finalPoint_cons (p0 : SDL_Point) (m : Env × SDL_Point) (ms : List (Env × SDL_Point)) :
    finalPoint p0 (m :: ms) = finalPoint m.2 ms := rfl

/-- A sequence of render calls appends to `calls`, folds over the pixels and
touches nothing else. -/
theorem foldl_render (R : Raster) (l : List RenderCall) (s : Session) :
    l.foldl (render R) s =
      { s with canvas := l.foldl (applyCall R) s.canvas, calls := s.calls ++ l } := by
  induction l generalizing s with
  | nil => simp
  | cons c l ih => simp [ih, render]

/-- With a shape tool selected the dab block is skipped. -/
theorem brushDab_shape (R : Raster) (env : Env) (s : Session) (x y : Int)
    (h : isShapeTool s.currentTool) : brushDab R env s x y = s := by
  unfold brushDab
  rcases h with h | h | h <;> simp [h]

/-- With a shape tool selected, a left button down records the start point
and draws nothing. -/
theorem down_shape (R : Raster) (env : Env) (s : Session) (x y : Int)
    (h : isShapeTool s.currentTool) :
    handleEvent R s (env, .SDL_MOUSEBUTTONDOWN SDL_BUTTON_LEFT x y) =
      { s with
        currentColor := (handleColorSelection s x y).currentColor
        rainbowMode := (handleColorSelection s x y).rainbowMode
        isDrawing := true
        startPoint := ⟨x, y⟩
        currentPoint := ⟨x, y⟩
        drawingShape := true } := by
  have ht : (handleColorSelection s x y).currentTool = s.currentTool := by
    rw [handleColorSelection_frame]
  simp only [handleEvent, handleMouseButtonDown, if_true]
  rw [brushDab_shape]
  · rw [handleColorSelection_frame]
    have h2 := h
    unfold isShapeTool at h2
    simp [h2]
  · simpa [ht] using h

/-- While a shape is being dragged, a motion event only moves the current
point. -/
theorem motion_shape (R : Raster) (env : Env) (s : Session) (x y : Int)
    (hd : s.isDrawing = true) (h : isShapeTool s.currentTool) :
    handleEvent R s (env, .SDL_MOUSEMOTION x y) = { s with currentPoint := ⟨x, y⟩ } := by
  simp only [handleEvent, handleMouseMotion, hd, if_true]
  rw [brushDab_shape]
  exact h

/-- A run of motion events while a shape is being dragged only moves the
current point, to the last of them. -/
theorem run_motion_shape (R : Raster) (moves : List (Env × SDL_Point)) (s : Session)
    (hd : s.isDrawing = true) (h : isShapeTool s.currentTool) :
    run R s (motionInputs moves) = { s with currentPoint := finalPoint s.currentPoint moves } := by
  induction moves generalizing s with
  | nil => rfl
  | cons m ms ih =>
    simp only [run, motionInputs, List.map_cons, List.foldl_cons] at ih ⊢
    rw [motion_shape R m.1 s m.2.x m.2.y hd h,
      ih { s with currentPoint := ⟨m.2.x, m.2.y⟩ } hd h, finalPoint_cons]

theorem run_append (R : Raster) (s : Session) (a b : List (Env × Event)) :
    run R s (a ++ b) = run R (run R s a) b := by
  simp [run, List.foldl_append]

/-- The state in which a drag with a shape tool stands after its motion
events: the start point is `p0`, the current point the last one. -/
theorem run_drag_shape (R : Raster) (s : Session) (h : isShapeTool s.currentTool)
    (e0 : Env) (p0 : SDL_Point) (moves : List (Env × SDL_Point)) :
    run R s (dragInputs e0 p0 moves) =
      { s with
        currentColor := (handleColorSelection s p0.x p0.y).currentColor
        rainbowMode := (handleColorSelection s p0.x p0.y).rainbowMode
        isDrawing := true
        startPoint := p0
        currentPoint := finalPoint p0 moves
        drawingShape := true } := by
  have hd := down_shape R e0 s p0.x p0.y h
  simp only [dragInputs, run, List.foldl_cons] at hd ⊢
  rw [hd]
  exact run_motion_shape R moves _ rfl h

/-- A left button up commits the shape if one is being dragged, then pushes
the canvas on the undo stack. -/
theorem up_eq (R : Raster) (env : Env) (s : Session) (x y : Int) :
    handleEvent R s (env, .SDL_MOUSEBUTTONUP SDL_BUTTON_LEFT x y) =
      saveCanvasState
        (if s.drawingShape = true then
          { commitShape R { s with isDrawing := false } with drawingShape := false }
         else { s with isDrawing := false }) := by
  simp [handleEvent, handleMouseButtonUp]

/-- The session after a completed shape action, in closed form. -/
theorem run_action_shape (R : Raster) (s : Session) (h : isShapeTool s.currentTool)
    (e0 : Env) (p0 : SDL_Point) (moves : List (Env × SDL_Point)) (eu : Env) (up : SDL_Point) :
    (run R s (actionInputs e0 p0 moves eu up)).calls =
      s.calls ++ shapeCalls s.currentTool p0 (finalPoint p0 moves)
        ⟨(handleColorSelection s p0.x p0.y).currentColor.r,
         (handleColorSelection s p0.x p0.y).currentColor.g,
         (handleColorSelection s p0.x p0.y).currentColor.b, 255⟩ ∧
    (run R s (actionInputs e0 p0 moves eu up)).canvas =
      (shapeCalls s.currentTool p0 (finalPoint p0 moves)
        ⟨(handleColorSelection s p0.x p0.y).currentColor.r,
         (handleColorSelection s p0.x p0.y).currentColor.g,
         (handleColorSelection s p0.x p0.y).currentColor.b, 255⟩).foldl (applyCall R) s.canvas := by
  rw [actionInputs, run_append, run_drag_shape R s h]
  simp only [run, List.foldl_cons, List.foldl_nil, up_eq, if_true, commitShape, foldl_render,
    saveCanvasState, and_self]

/-- The dab block leaves the undo stack alone. -/
theorem brushDab_undoStack (R : Raster) (env : Env) (s : Session) (x y : Int) :
    (brushDab R env s x y).undoStack = s.undoStack := by
  unfold brushDab
  split
  · split <;> rfl
  · rfl

/-- A button down leaves the undo stack alone. -/
theorem down_undoStack (R : Raster) (env : Env) (s : Session) (button : Nat) (x y : Int) :
    (handleEvent R s (env, .SDL_MOUSEBUTTONDOWN button x y)).undoStack = s.undoStack := by
  simp only [handleEvent, handleMouseButtonDown]
  split
  · rw [brushDab_undoStack, handleColorSelection_frame]
  · rfl

/-- A motion event leaves the undo stack alone. -/
theorem motion_undoStack (R : Raster) (env : Env) (s : Session) (x y : Int) :
    (handleEvent R s (env, .SDL_MOUSEMOTION x y)).undoStack = s.undoStack := by
  simp only [handleEvent, handleMouseMotion]
  split
  · rw [brushDab_undoStack]
  · rfl

/-- Motion events leave the undo stack alone. -/
theorem run_motion_undoStack (R : Raster) (moves : List (Env × SDL_Point)) (s : Session) :
    (run R s (motionInputs moves)).undoStack = s.undoStack := by
  induction moves generalizing s with
  | nil => rfl
  | cons m ms ih =>
    simp only [run, motionInputs, List.map_cons, List.foldl_cons] at ih ⊢
    rw [ih, motion_undoStack]

/-- A drag in progress leaves the undo stack alone. -/
theorem run_drag_undoStack (R : Raster) (s : Session) (e0 : Env) (p0 : SDL_Point)
    (moves : List (Env × SDL_Point)) :
    (run R s (dragInputs e0 p0 moves)).undoStack = s.undoStack := by
  have h := run_motion_undoStack R moves
    (handleEvent R s (e0, .SDL_MOUSEBUTTONDOWN SDL_BUTTON_LEFT p0.x p0.y))
  rw [down_undoStack] at h
  exact h

/-- A left button up appends the canvas it leaves behind to the undo stack. -/
theorem up_undoStack (R : Raster) (env : Env) (s : Session) (x y : Int) :
    (handleEvent R s (env, .SDL_MOUSEBUTTONUP SDL_BUTTON_LEFT x y)).undoStack =
      s.undoStack ++ [(handleEvent R s (env, .SDL_MOUSEBUTTONUP SDL_BUTTON_LEFT x y)).canvas] := by
  rw [up_eq]
  split <;> simp [saveCanvasState, commitShape, foldl_render]

/-- After a completed action the undo stack is the old one followed by the
canvas the action leaves behind. -/
theorem run_action_undoStack (R : Raster) (s : Session)
    (e0 : Env) (p0 : SDL_Point) (moves : List (Env × SDL_Point)) (eu : Env) (up : SDL_Point) :
    (run R s (actionInputs e0 p0 moves eu up)).undoStack =
      s.undoStack ++ [(run R s (actionInputs e0 p0 moves eu up)).canvas] := by
  rw [actionInputs, run_append]
  simp only [run, List.foldl_cons, List.foldl_nil]
  rw [up_undoStack]
  congr 1
  exact run_drag_undoStack R s e0 p0 moves

/-- Undo on a stack that ends with the snapshot `c` puts `c` on the canvas
and drops it from the stack. -/
theorem undoLastAction_snoc (R : Raster) (s : Session) (st : List Canvas) (c : Canvas)
    (h : s.undoStack = st ++ [c]) :
    (undoLastAction R s).canvas = c ∧ (undoLastAction R s).undoStack = st := by
  simp [undoLastAction, h, render, applyCall]

/-- What the code does where C1 expects the pre-action canvas: an undo right
after a completed action leaves the canvas as the action left it, and the
stack as it was before the action. -/
theorem undo_after_action (R : Raster) (s : Session)
    (e0 : Env) (p0 : SDL_Point) (moves : List (Env × SDL_Point)) (eu : Env) (up : SDL_Point) :
    (undoLastAction R (run R s (actionInputs e0 p0 moves eu up))).canvas =
      (run R s (actionInputs e0 p0 moves eu up)).canvas ∧
    (undoLastAction R (run R s (actionInputs e0 p0 moves eu up))).undoStack = s.undoStack :=
  undoLastAction_snoc R _ s.undoStack _ (run_action_undoStack R s e0 p0 moves eu up)

/-- With Brush or Eraser selected the dab block issues one `fillRect`: the
`brushSize` square around the point, white for the eraser, else the current
colour, which rainbow mode first replaces by the colour of the clock's hue. -/
theorem brushDab_brush (R : Raster) (env : Env) (s : Session) (x y : Int)
    (h : isBrushTool s.currentTool) :
    brushDab R env s x y =
      render R
        { s with currentColor :=
            if s.currentTool = .TOOL_BRUSH ∧ s.rainbowMode = true then
              hueToRGB ((env.ticks % 360 : Nat) : ℚ)
            else s.currentColor }
        (.fillRect ⟨x - Int.tdiv s.brushSize 2, y - Int.tdiv s.brushSize 2, s.brushSize, s.brushSize⟩
          (if s.currentTool = .TOOL_ERASER then ⟨255, 255, 255, 255⟩
           else if s.rainbowMode = true then
             ⟨(hueToRGB ((env.ticks % 360 : Nat) : ℚ)).r, (hueToRGB ((env.ticks % 360 : Nat) : ℚ)).g,
              (hueToRGB ((env.ticks % 360 : Nat) : ℚ)).b, 255⟩
           else ⟨s.currentColor.r, s.currentColor.g, s.currentColor.b, 255⟩)) := by
  cases s
  simp only [isBrushTool] at h
  rcases h with h | h <;> subst h
  · rename_i rb _ _ _ _ _ _ _ _
    cases rb <;> simp [brushDab]
  · simp [brushDab]


/-- While Brush or Eraser is dragged, every motion event issues one dab, with
the brush size, the rainbow flag and (outside rainbow mode) the colour the
drag started with. -/
theorem run_motion_brush (R : Raster) (tool : Tool) (bs : Int) (rb : Bool) (c0 : SDL_Color)
    (htool : isBrushTool tool) (moves : List (Env × SDL_Point)) (t : Session)
    (hd : t.isDrawing = true) (ht : t.currentTool = tool) (hbs : t.brushSize = bs)
    (hrb : t.rainbowMode = rb)
    (hc : ¬ (tool = .TOOL_BRUSH ∧ rb = true) → t.currentColor = c0) :
    (run R t (motionInputs moves)).calls =
      t.calls ++ moves.map (fun m =>
        RenderCall.fillRect ⟨m.2.x - Int.tdiv bs 2, m.2.y - Int.tdiv bs 2, bs, bs⟩
          (if tool = .TOOL_ERASER then ⟨255, 255, 255, 255⟩
           else if rb = true then
             ⟨(hueToRGB ((m.1.ticks % 360 : Nat) : ℚ)).r, (hueToRGB ((m.1.ticks % 360 : Nat) : ℚ)).g,
              (hueToRGB ((m.1.ticks % 360 : Nat) : ℚ)).b, 255⟩
           else ⟨c0.r, c0.g, c0.b, 255⟩)) ∧
    (run R t (motionInputs moves)).drawingShape = t.drawingShape := by
  induction moves generalizing t with
  | nil => simp [run, motionInputs]
  | cons m ms ih =>
    have hstep : handleEvent R t (m.1, .SDL_MOUSEMOTION m.2.x m.2.y) =
        brushDab R m.1 { t with currentPoint := ⟨m.2.x, m.2.y⟩ } m.2.x m.2.y := by
      simp only [handleEvent, handleMouseMotion, hd, if_true]
    rw [brushDab_brush R m.1 _ m.2.x m.2.y (by rw [← ht] at htool; exact htool)] at hstep
    have ih2 := ih (handleEvent R t (m.1, .SDL_MOUSEMOTION m.2.x m.2.y))
      (by rw [hstep]; exact hd) (by rw [hstep]; exact ht) (by rw [hstep]; exact hbs)
      (by rw [hstep]; exact hrb)
      (by
        intro hn
        rw [hstep]
        have hn2 : ¬ (t.currentTool = .TOOL_BRUSH ∧ t.rainbowMode = true) := by
          rw [ht, hrb]; exact hn
        simp only [render, hn2, if_false]
        exact hc hn)
    simp only [run, motionInputs, List.map_cons, List.foldl_cons] at ih2 ⊢
    rw [ih2.1, ih2.2, hstep]
    refine ⟨?_, rfl⟩
    simp only [render, List.append_assoc, List.singleton_append, ht, hbs, hrb]
    congr 2
    by_cases he : tool = .TOOL_ERASER
    · simp [he]
    · by_cases hr : rb = true
      · simp [he, hr]
      · have hb : ¬ (tool = .TOOL_BRUSH ∧ rb = true) := fun hh => hr hh.2
        simp [he, hr, hc hb]


/-- With Brush or Eraser selected, a left button down selects the palette
colour under the pointer, if any, and issues the first dab. -/
theorem down_brush (R : Raster) (env : Env) (s : Session) (x y : Int)
    (h : isBrushTool s.currentTool) :
    handleEvent R s (env, .SDL_MOUSEBUTTONDOWN SDL_BUTTON_LEFT x y) =
      render R
        { s with
          currentColor :=
            if s.currentTool = .TOOL_BRUSH ∧ (handleColorSelection s x y).rainbowMode = true then
              hueToRGB ((env.ticks % 360 : Nat) : ℚ)
            else (handleColorSelection s x y).currentColor
          rainbowMode := (handleColorSelection s x y).rainbowMode
          isDrawing := true
          startPoint := ⟨x, y⟩
          currentPoint := ⟨x, y⟩
          drawingShape := false }
        (.fillRect ⟨x - Int.tdiv s.brushSize 2, y - Int.tdiv s.brushSize 2, s.brushSize, s.brushSize⟩
          (if s.currentTool = .TOOL_ERASER then ⟨255, 255, 255, 255⟩
           else if (handleColorSelection s x y).rainbowMode = true then
             ⟨(hueToRGB ((env.ticks % 360 : Nat) : ℚ)).r, (hueToRGB ((env.ticks % 360 : Nat) : ℚ)).g,
              (hueToRGB ((env.ticks % 360 : Nat) : ℚ)).b, 255⟩
           else ⟨(handleColorSelection s x y).currentColor.r,
                 (handleColorSelection s x y).currentColor.g,
                 (handleColorSelection s x y).currentColor.b, 255⟩)) := by
  have ht : (handleColorSelection s x y).currentTool = s.currentTool := by
    rw [handleColorSelection_frame]
  have hns : ¬ (s.currentTool = .TOOL_LINE ∨ s.currentTool = .TOOL_RECTANGLE ∨
      s.currentTool = .TOOL_CIRCLE) := by
    rcases h with h | h <;> simp [h]
  simp only [handleEvent, handleMouseButtonDown, if_true]
  rw [brushDab_brush _ _ _ _ _ (by simpa [ht] using h)]
  rw [handleColorSelection_frame]
  simp [hns]


/-- The render calls of a Brush or Eraser drag in progress: one dab for the
button down and one per motion event, in order. -/
theorem run_drag_brush (R : Raster) (s : Session) (h : isBrushTool s.currentTool)
    (e0 : Env) (p0 : SDL_Point) (moves : List (Env × SDL_Point)) :
    (run R s (dragInputs e0 p0 moves)).calls =
      s.calls ++ ((e0, p0) :: moves).map (fun m =>
        RenderCall.fillRect
          ⟨m.2.x - Int.tdiv s.brushSize 2, m.2.y - Int.tdiv s.brushSize 2, s.brushSize, s.brushSize⟩
          (if s.currentTool = .TOOL_ERASER then ⟨255, 255, 255, 255⟩
           else if (handleColorSelection s p0.x p0.y).rainbowMode = true then
             ⟨(hueToRGB ((m.1.ticks % 360 : Nat) : ℚ)).r, (hueToRGB ((m.1.ticks % 360 : Nat) : ℚ)).g,
              (hueToRGB ((m.1.ticks % 360 : Nat) : ℚ)).b, 255⟩
           else ⟨(handleColorSelection s p0.x p0.y).currentColor.r,
                 (handleColorSelection s p0.x p0.y).currentColor.g,
                 (handleColorSelection s p0.x p0.y).currentColor.b, 255⟩)) ∧
    (run R s (dragInputs e0 p0 moves)).drawingShape = false := by
  have hd := down_brush R e0 s p0.x p0.y h
  have hm := run_motion_brush R s.currentTool s.brushSize
    (handleColorSelection s p0.x p0.y).rainbowMode (handleColorSelection s p0.x p0.y).currentColor
    h moves (handleEvent R s (e0, .SDL_MOUSEBUTTONDOWN SDL_BUTTON_LEFT p0.x p0.y))
    (by rw [hd]; rfl) (by rw [hd]; rfl) (by rw [hd]; rfl) (by rw [hd]; rfl)
    (by
      intro hn
      rw [hd]
      simp only [render, hn, if_false])
  simp only [dragInputs, run, List.foldl_cons, List.map_cons] at hm ⊢
  rw [hm.1, hm.2, hd]
  simp only [render, List.append_assoc, List.singleton_append, and_self]

/-- C4: with Brush or Eraser selected, a drag (left button down at `p0`, then
motion events to `p1 .. pn` and nothing else) has issued, after the button
down and after each motion event, one `fillRect` per point so far, in order:
the `brushSize x brushSize` square with top-left corner
`(x - brushSize/2, y - brushSize/2)`, white for the Eraser, for the Brush the
active colour (the colour current after the palette test of the button down
or, in rainbow mode, the colour of the hue of the clock at that event).  The
button up issues no further call, so a completed action issues `1 + n`. -/
theorem brush_drag_dabs (R : Raster) (s : Session) (h : isBrushTool s.currentTool)
    (e0 : Env) (p0 : SDL_Point) (moves : List (Env × SDL_Point)) (eu : Env) (up : SDL_Point) :
    (∀ k, (run R s (dragInputs e0 p0 (moves.take k))).calls =
      s.calls ++ ((e0, p0) :: moves.take k).map (fun m =>
        RenderCall.fillRect
          ⟨m.2.x - Int.tdiv s.brushSize 2, m.2.y - Int.tdiv s.brushSize 2, s.brushSize, s.brushSize⟩
          (if s.currentTool = .TOOL_ERASER then white
           else if (handleColorSelection s p0.x p0.y).rainbowMode = true then
             ⟨(hueToRGB ((m.1.ticks % 360 : Nat) : ℚ)).r, (hueToRGB ((m.1.ticks % 360 : Nat) : ℚ)).g,
              (hueToRGB ((m.1.ticks % 360 : Nat) : ℚ)).b, 255⟩
           else ⟨(handleColorSelection s p0.x p0.y).currentColor.r,
                 (handleColorSelection s p0.x p0.y).currentColor.g,
                 (handleColorSelection s p0.x p0.y).currentColor.b, 255⟩))) ∧
    (run R s (actionInputs e0 p0 moves eu up)).calls = (run R s (dragInputs e0 p0 moves)).calls ∧
    (run R s (actionInputs e0 p0 moves eu up)).calls.length = s.calls.length + (1 + moves.length) := by
  have hup : (run R s (actionInputs e0 p0 moves eu up)).calls =
      (run R s (dragInputs e0 p0 moves)).calls := by
    rw [actionInputs, run_append]
    simp only [run, List.foldl_cons, List.foldl_nil, up_eq]
    have hds := (run_drag_brush R s h e0 p0 moves).2
    simp only [run] at hds
    simp [hds, saveCanvasState]
  refine ⟨fun k => (run_drag_brush R s h e0 p0 (moves.take k)).1, hup, ?_⟩
  rw [hup, (run_drag_brush R s h e0 p0 moves).1]
  simp
  omega

/-- C4 for the Brush: a drag from `(100, 100)` over `(150, 120)` to
`(200, 180)` issues three dabs, 10 x 10 squares in black. -/
theorem brush_drag_dabs_witness :
    isBrushTool (initialSession sampleRaster).currentTool ∧
    (run sampleRaster (initialSession sampleRaster)
      (actionInputs sampleEnv ⟨100, 100⟩ twoMoves sampleEnv ⟨200, 180⟩)).calls.length =
      (initialSession sampleRaster).calls.length + (1 + 2) ∧
    (run sampleRaster (initialSession sampleRaster) (dragInputs sampleEnv ⟨100, 100⟩ twoMoves)).calls =
      (initialSession sampleRaster).calls ++
        [RenderCall.fillRect ⟨95, 95, 10, 10⟩ ⟨0, 0, 0, 255⟩,
         RenderCall.fillRect ⟨145, 115, 10, 10⟩ ⟨0, 0, 0, 255⟩,
         RenderCall.fillRect ⟨195, 175, 10, 10⟩ ⟨0, 0, 0, 255⟩] :=
  ⟨by decide,
   (brush_drag_dabs sampleRaster (initialSession sampleRaster) (by decide) sampleEnv ⟨100, 100⟩
      twoMoves sampleEnv ⟨200, 180⟩).2.2,
   (brush_drag_dabs sampleRaster (initialSession sampleRaster) (by decide) sampleEnv ⟨100, 100⟩
      twoMoves sampleEnv ⟨200, 180⟩).1 2⟩

/-- A Brush click at `(100, 100)` in rainbow mode when the clock reads 380:
the dab is drawn in the colour of hue 20 as `double` arithmetic gives it. -/
theorem rainbow_click_dab :
    (handleEvent sampleRaster rainbowSession
        (envTicks380, .SDL_MOUSEBUTTONDOWN SDL_BUTTON_LEFT 100 100)).calls =
      rainbowSession.calls ++ [RenderCall.fillRect ⟨95, 95, 10, 10⟩ ⟨255, 84, 0, 255⟩] := by
  have hr : (handleColorSelection rainbowSession 100 100).rainbowMode = true := by decide
  have ht : rainbowSession.currentTool = Tool.TOOL_BRUSH := by decide
  have hb : rainbowSession.brushSize = 10 := by decide
  have hh : (((envTicks380.ticks % 360 : Nat) : ℚ)) = 20 := by
    simp [envTicks380]
  rw [down_brush sampleRaster envTicks380 rainbowSession 100 100 (Or.inl ht)]
  simp only [render, hr, ht, hb, hh, hueToRGB_twenty, if_true]
  simp
  decide

/-! ### Brush size -/

/-- Inside the range of `int` the reduction is the identity. -/
theorem wrapInt32_of_inRange (n : Int) (h1 : -2147483648 ≤ n) (h2 : n ≤ 2147483647) :
    wrapInt32 n = n := by
  unfold wrapInt32
  omega

/-- The dab block changes the canvas, its calls and the current colour, and
nothing else. -/
theorem brushDab_frame (R : Raster) (env : Env) (s : Session) (x y : Int) :
    brushDab R env s x y =
      { s with
        canvas := (brushDab R env s x y).canvas
        calls := (brushDab R env s x y).calls
        currentColor := (brushDab R env s x y).currentColor } := by
  unfold brushDab
  split
  · split <;> rfl
  · rfl

/-- The brush size after one event: `+` adds 2 in `int` arithmetic, `-`
subtracts 2 above 2, every other event leaves it alone. -/
theorem handleEvent_brushSize (R : Raster) (s : Session) (input : Env × Event) :
    (handleEvent R s input).brushSize =
      if isPlusInput input = true then wrapInt32 (s.brushSize + 2)
      else if (input.2 = .SDL_KEYDOWN .SDLK_MINUS ∨ input.2 = .SDL_KEYDOWN .SDLK_KP_MINUS) ∧
              s.brushSize > 2 then s.brushSize - 2
      else s.brushSize := by
  obtain ⟨env, e⟩ := input
  cases e with
  | SDL_QUIT => rfl
  | other => rfl
  | SDL_KEYDOWN sym =>
    cases sym <;> simp [handleEvent, handleKeyDown, isPlusInput, undoLastAction, clearCanvas, render]
    all_goals first | (split_ifs <;> rfl) | (split <;> rfl)
  | SDL_MOUSEBUTTONDOWN button x y =>
    simp only [handleEvent, handleMouseButtonDown, isPlusInput]
    split
    · rw [brushDab_frame, handleColorSelection_frame]
      simp
    · simp
  | SDL_MOUSEMOTION x y =>
    simp only [handleEvent, handleMouseMotion, isPlusInput]
    split
    · rw [brushDab_frame]
      simp
    · simp
  | SDL_MOUSEBUTTONUP button x y =>
    simp only [handleEvent, handleMouseButtonUp, isPlusInput]
    split
    · split <;> simp [saveCanvasState, commitShape, foldl_render]
    · simp

/-- An even brush size stays even and at 2 or above as long as the `+` keys
still to come cannot push it over the largest `int`; it grows by at most 2
per `+`. -/
theorem run_brushSize_bounds (R : Raster) (inputs : List (Env × Event)) (s : Session)
    (h2 : 2 ≤ s.brushSize) (heven : s.brushSize % 2 = 0)
    (hmax : s.brushSize + 2 * (inputs.countP isPlusInput : Int) ≤ 2147483647) :
    2 ≤ (run R s inputs).brushSize ∧ (run R s inputs).brushSize % 2 = 0 ∧
    (run R s inputs).brushSize ≤ s.brushSize + 2 * (inputs.countP isPlusInput : Int) := by
  induction inputs generalizing s with
  | nil => simp [run, h2, heven]
  | cons i is ih =>
    have hstep := handleEvent_brushSize R s i
    simp only [run, List.foldl_cons] at ih ⊢
    by_cases hp : isPlusInput i = true
    · rw [if_pos hp] at hstep
      rw [List.countP_cons_of_pos _ _ hp] at hmax ⊢
      push_cast at hmax ⊢
      rw [wrapInt32_of_inRange _ (by omega) (by omega)] at hstep
      have := ih (handleEvent R s i) (by omega) (by omega) (by omega)
      omega
    · rw [if_neg hp] at hstep
      rw [List.countP_cons_of_neg _ _ hp] at hmax ⊢
      have hle : 2 ≤ (handleEvent R s i).brushSize ∧ (handleEvent R s i).brushSize % 2 = 0 ∧
          (handleEvent R s i).brushSize ≤ s.brushSize := by
        rw [hstep]
        split
        · next hc => have := hc.2; omega
        · omega
      have := ih (handleEvent R s i) hle.1 hle.2.1 (by omega)
      omega

/-- C6, amended: from the initial session (brush size 10), after every finite
sequence of key and pointer events with at most 1073741818 presses of a `+`
key, in any order with any other events, the brush size is at least 2. -/
theorem brushSize_ge_two (R : Raster) (inputs : List (Env × Event))
    (h : inputs.countP isPlusInput ≤ 1073741818) :
    2 ≤ (run R (initialSession R) inputs).brushSize := by
  have hb : (initialSession R).brushSize = 10 := rfl
  refine (run_brushSize_bounds R inputs (initialSession R) (by rw [hb]; decide) (by rw [hb]; decide) ?_).1
  rw [hb]
  have : (inputs.countP isPlusInput : Int) ≤ 1073741818 := by exact_mod_cast h
  omega

/-- The `+` key pressed `n` times adds `2 n` while that stays in range. -/
theorem run_replicate_plus (R : Raster) (env : Env) (n : Nat) (s : Session)
    (h1 : -2147483648 ≤ s.brushSize) (h2 : s.brushSize + 2 * (n : Int) ≤ 2147483647) :
    (run R s (List.replicate n (env, Event.SDL_KEYDOWN Keycode.SDLK_PLUS))).brushSize =
      s.brushSize + 2 * (n : Int) := by
  induction n generalizing s with
  | zero => simp [run]
  | succ n ih =>
    simp only [run, List.replicate_succ, List.foldl_cons] at ih ⊢
    have hstep : (handleEvent R s (env, Event.SDL_KEYDOWN Keycode.SDLK_PLUS)).brushSize =
        s.brushSize + 2 := by
      rw [handleEvent_brushSize]
      simp only [isPlusInput, if_true]
      exact wrapInt32_of_inRange _ (by omega) (by push_cast at h2; omega)
    rw [ih _ (by omega) (by rw [hstep]; push_cast at h2 ⊢; omega), hstep]
    push_cast
    ring

/-- C6 at one `+` and seven `-`: the brush size ends at the floor. -/
theorem brushSize_ge_two_witness :
    List.countP isPlusInput plusThenMinus ≤ 1073741818 ∧
    2 ≤ (run sampleRaster (initialSession sampleRaster) plusThenMinus).brushSize :=
  ⟨by decide, brushSize_ge_two sampleRaster plusThenMinus (by decide)⟩

/-- C6 as stated fails: after 1073741819 presses of `+` from the initial
session the addition leaves the range of `int` and the brush size is
`-2147483648`, below 2. -/
theorem brushSize_overflow :
    (run sampleRaster (initialSession sampleRaster) manyPlus).brushSize = -2147483648 ∧
    ¬ 2 ≤ (run sampleRaster (initialSession sampleRaster) manyPlus).brushSize := by
  have hsplit : manyPlus =
      List.replicate 1073741818 (sampleEnv, Event.SDL_KEYDOWN Keycode.SDLK_PLUS) ++
        [(sampleEnv, Event.SDL_KEYDOWN Keycode.SDLK_PLUS)] :=
    List.replicate_succ' 1073741818 _
  have hb : (initialSession sampleRaster).brushSize = 10 := rfl
  have hrun := run_replicate_plus sampleRaster sampleEnv 1073741818 (initialSession sampleRaster)
    (by rw [hb]; decide) (by rw [hb]; decide)
  have hlast : (run sampleRaster (initialSession sampleRaster) manyPlus).brushSize =
      -2147483648 := by
    rw [hsplit, run_append]
    simp only [run, List.foldl_cons, List.foldl_nil] at hrun ⊢
    rw [handleEvent_brushSize, hrun, hb]
    simp only [isPlusInput, if_true]
    decide
  rw [hlast]
  exact ⟨rfl, by decide⟩


/-! ### Key commands during a shape drag -/

/-- The loop variables one iteration later, as long as `x` and `y` stay in
the range of `int`: `y` is one more and `x` is the same or one less. -/
theorem drawCircleStep_xy (x y err : Int) (hy : 0 ≤ y) (hyx : y ≤ x) (hx : x ≤ 2147483646) :
    (drawCircleStep x y err).2.1 = y + 1 ∧
    ((drawCircleStep x y err).1 = x ∨ (drawCircleStep x y err).1 = x - 1) := by
  have h1 : wrapInt32 (y + 1) = y + 1 := wrapInt32_of_inRange _ (by omega) (by omega)
  have h2 : wrapInt32 (x - 1) = x - 1 := wrapInt32_of_inRange _ (by omega) (by omega)
  simp only [drawCircleStep, h1, h2]
  refine ⟨trivial, ?_⟩
  split_ifs <;> first | exact Or.inl rfl | exact Or.inr rfl

/-- The first iteration from `err = 0` and `y = 0` always takes `x` down by
one. -/
theorem drawCircleStep_first (r : Int) (h0 : 0 ≤ r) (h1 : r ≤ 2147483647) :
    (drawCircleStep r 0 0).1 = r - 1 ∧ (drawCircleStep r 0 0).2.1 = 1 := by
  have h2 : wrapInt32 (r - 1) = r - 1 := wrapInt32_of_inRange _ (by omega) (by omega)
  have w1 : wrapInt32 1 = 1 := by decide
  have w2 : wrapInt32 2 = 2 := by decide
  have w3 : wrapInt32 3 = 3 := by decide
  simp [drawCircleStep, h2, w1, w2, w3]

/-- The points plotted are the eight points of each recorded iteration, in
order, and the loop ends when the recording does. -/
theorem drawCircleLoop_eq_trace (cx cy : Int) (fuel : Nat) :
    ∀ x y err : Int,
      drawCircleLoop cx cy fuel x y err =
        (drawCircleTrace fuel x y err).map
          (fun trace => trace.flatMap (fun st => circlePoints cx cy st.1 st.2.1)) := by
  induction fuel with
  | zero =>
    intro x y err
    simp only [drawCircleLoop, drawCircleTrace]
    split <;> rfl
  | succ n ih =>
    intro x y err
    simp only [drawCircleLoop, drawCircleTrace]
    split
    · rw [ih]
      cases drawCircleTrace n (drawCircleStep x y err).1 (drawCircleStep x y err).2.1
        (drawCircleStep x y err).2.2 <;> simp
    · rfl

/-- Once the first iteration is over, the loop ends within `x - y + 1` more
iterations, whatever `err` is: `y` goes up and `x` never does. -/
theorem drawCircleTrace_ends_aux (fuel : Nat) :
    ∀ x y err : Int, 1 ≤ y → x ≤ 2147483646 → (x - y + 1).toNat ≤ fuel →
      ∃ trace, drawCircleTrace fuel x y err = some trace := by
  induction fuel with
  | zero =>
    intro x y err _ _ hf
    have : ¬ x ≥ y := by omega
    exact ⟨[], by simp [drawCircleTrace, this]⟩
  | succ n ih =>
    intro x y err hy hx hf
    by_cases hxy : x ≥ y
    · obtain ⟨hy1, hx1⟩ := drawCircleStep_xy x y err (by omega) hxy hx
      obtain ⟨t, ht⟩ := ih (drawCircleStep x y err).1 (drawCircleStep x y err).2.1
        (drawCircleStep x y err).2.2 (by omega) (by omega) (by omega)
      exact ⟨(x, y, err) :: t, by simp [drawCircleTrace, hxy, ht]⟩
    · exact ⟨[], by simp [drawCircleTrace, hxy]⟩

/-- For every radius in the range of `int` the loop of `drawCircle` ends
within `radius + 1` iterations, the first of which plots. -/
theorem drawCircle_ends (cx cy r : Int) (h0 : 0 ≤ r) (h1 : r ≤ 2147483647) :
    ∃ trace, drawCircleTrace (r.toNat + 1) r 0 0 = some ((r, 0, 0) :: trace) ∧
      drawCircle cx cy r =
        ((r, 0, 0) :: trace).flatMap (fun st => circlePoints cx cy st.1 st.2.1) := by
  obtain ⟨hx, hy⟩ := drawCircleStep_first r h0 h1
  obtain ⟨t, ht⟩ := drawCircleTrace_ends_aux r.toNat (drawCircleStep r 0 0).1
    (drawCircleStep r 0 0).2.1 (drawCircleStep r 0 0).2.2 (by omega) (by omega) (by omega)
  have htrace : drawCircleTrace (r.toNat + 1) r 0 0 = some ((r, 0, 0) :: t) := by
    simp [drawCircleTrace, h0, ht]
  refine ⟨t, htrace, ?_⟩
  rw [drawCircle, drawCircleLoop_eq_trace, htrace]
  rfl

/-- A shape tool always has something to draw: its render calls are not
empty (for the circle, as long as the squared distance of the two points is
an `int`). -/
theorem shapeCalls_ne_nil (tool : Tool) (h : isShapeTool tool) (p q : SDL_Point)
    (hpq : (q.x - p.x) * (q.x - p.x) + (q.y - p.y) * (q.y - p.y) ≤ 2147483647)
    (color : SDL_Color) : shapeCalls tool p q color ≠ [] := by
  rcases h with h | h | h <;> subst h
  · simp [shapeCalls]
  · simp [shapeCalls]
  · simp only [shapeCalls, ne_eq, List.map_eq_nil_iff]
    have hr : ((Nat.sqrt ((q.x - p.x) * (q.x - p.x) + (q.y - p.y) * (q.y - p.y)).toNat : Nat) : Int)
        ≤ 2147483647 := by
      have := Nat.sqrt_le_self ((q.x - p.x) * (q.x - p.x) + (q.y - p.y) * (q.y - p.y)).toNat
      omega
    obtain ⟨t, _, ht⟩ := drawCircle_ends p.x p.y _ (Int.ofNat_nonneg _) hr
    rw [Int.ofNat_eq_coe, ht]
    simp [circlePoints]

/-- During a drag, a motion event or a settings key keeps the drag going and
the start point in place; only a motion event moves the current point. -/
theorem dragInput_step (R : Raster) (s : Session) (input : Env × Event)
    (hi : isDragInput input = true) (hd : s.isDrawing = true) :
    (handleEvent R s input).isDrawing = true ∧
    (handleEvent R s input).drawingShape = s.drawingShape ∧
    (handleEvent R s input).startPoint = s.startPoint ∧
    (handleEvent R s input).currentPoint =
      (match input.2 with
       | .SDL_MOUSEMOTION x y => ⟨x, y⟩
       | _ => s.currentPoint) := by
  obtain ⟨env, e⟩ := input
  cases e with
  | SDL_QUIT => exact absurd hi (by simp [isDragInput])
  | other => exact absurd hi (by simp [isDragInput])
  | SDL_MOUSEBUTTONDOWN button x y => exact absurd hi (by simp [isDragInput])
  | SDL_MOUSEBUTTONUP button x y => exact absurd hi (by simp [isDragInput])
  | SDL_MOUSEMOTION x y =>
    simp only [handleEvent, handleMouseMotion, hd, if_true]
    rw [brushDab_frame]
    exact ⟨rfl, rfl, rfl, rfl⟩
  | SDL_KEYDOWN sym =>
    simp only [isDragInput, decide_eq_true_eq] at hi
    rcases hi with h | h | h | h | h | h | h | h | h | h <;> subst h <;>
      simp only [handleEvent, handleKeyDown]
    all_goals first
      | exact ⟨hd, trivial, trivial, trivial⟩
      | (split <;> simp [hd])

/-- Motion events and settings keys after a button down leave the start
point where the button down put it and the current point at the last motion
event. -/
theorem run_dragInputs (R : Raster) (mids : List (Env × Event)) (s : Session)
    (hm : ∀ i ∈ mids, isDragInput i = true) (hd : s.isDrawing = true) :
    (run R s mids).isDrawing = true ∧
    (run R s mids).drawingShape = s.drawingShape ∧
    (run R s mids).startPoint = s.startPoint ∧
    (run R s mids).currentPoint = lastMotionPoint s.currentPoint mids := by
  induction mids generalizing s with
  | nil => exact ⟨hd, rfl, rfl, rfl⟩
  | cons i is ih =>
    have hstep := dragInput_step R s i (hm i (List.mem_cons_self _ _)) hd
    have hrest := ih (handleEvent R s i) (fun j hj => hm j (List.mem_cons_of_mem _ hj)) hstep.1
    simp only [run, lastMotionPoint, List.foldl_cons] at hrest ⊢
    rw [hrest.2.1, hrest.2.2.1, hrest.2.2.2, hstep.2.1, hstep.2.2.1, hstep.2.2.2]
    exact ⟨hrest.1, rfl, rfl, rfl⟩

/-- More fuel does not change the outcome of a loop that has ended. -/
theorem drawCircleTrace_mono (k : Nat) (fuel : Nat) :
    ∀ (x y err : Int) (trace : List (Int × Int × Int)),
      drawCircleTrace fuel x y err = some trace →
      drawCircleTrace (fuel + k) x y err = some trace := by
  induction fuel with
  | zero =>
    intro x y err trace h
    by_cases hxy : x ≥ y
    · simp [drawCircleTrace, hxy] at h
    · simp only [drawCircleTrace, hxy, if_false] at h
      cases k with
      | zero => simp [drawCircleTrace, hxy, h]
      | succ k => simpa [drawCircleTrace, hxy] using h
  | succ n ih =>
    intro x y err trace h
    rw [Nat.add_right_comm]
    by_cases hxy : x ≥ y
    · simp only [drawCircleTrace, hxy, if_true, Option.map_eq_some'] at h ⊢
      obtain ⟨t, ht, hcons⟩ := h
      exact ⟨t, ih _ _ _ t ht, hcons⟩
    · simpa [drawCircleTrace, hxy] using h

/-- Where the loop is entered with `err ≤ 0`, `y` is far below the largest
`int`. -/
theorem drawCircle_y_small (r x y : Int) (hr0 : 0 ≤ r) (hr : r ≤ 1073741826) (hy : 0 ≤ y)
    (hyx : y ≤ x) (hle : x * x + y * y - r * r + 2 * y ≤ 0) : y ≤ 1073741822 := by
  by_contra hcon
  have hy1 : 1073741823 ≤ y := by omega
  have hyy : (1073741823 : Int) * 1073741823 ≤ y * y := by nlinarith
  have hxx : y * y ≤ x * x := by nlinarith
  have hrr : r * r ≤ 1073741826 * 1073741826 := by nlinarith
  norm_num at hyy hrr
  omega

/-- The loop variables one iteration later where no operation leaves the
range of `int`, or only one whose result is reduced back into it. -/
theorem drawCircleStep_exact (x y err : Int) (hy : 0 ≤ y) (hy2 : y ≤ 1073741822) (hyx : y ≤ x)
    (hx : x ≤ 1073741826) (herr0 : err ≤ 0) (herr1 : -2147483648 ≤ err)
    (hlow : 0 < err + (2 * (y + 1) + 1) →
      -2147483648 ≤ err + (2 * (y + 1) + 1) - (2 * (x - 1) + 1)) :
    drawCircleStep x y err =
      if 0 < err + (2 * (y + 1) + 1) then
        (x - 1, y + 1, err + (2 * (y + 1) + 1) - (2 * (x - 1) + 1))
      else (x, y + 1, err + (2 * (y + 1) + 1)) := by
  have a1 : wrapInt32 (y + 1) = y + 1 := wrapInt32_of_inRange _ (by omega) (by omega)
  have a2 : wrapInt32 (err + wrapInt32 (wrapInt32 (2 * (y + 1)) + 1)) =
      err + (2 * (y + 1) + 1) := by
    unfold wrapInt32; omega
  have a3 : wrapInt32 (x - 1) = x - 1 := wrapInt32_of_inRange _ (by omega) (by omega)
  have a4 : 0 < err + (2 * (y + 1) + 1) →
      wrapInt32 (err + (2 * (y + 1) + 1) - wrapInt32 (wrapInt32 (2 * (x - 1)) + 1)) =
        err + (2 * (y + 1) + 1) - (2 * (x - 1) + 1) := by
    intro hpos
    have := hlow hpos
    unfold wrapInt32; omega
  simp only [drawCircleStep, a1, herr0, if_true, a2, gt_iff_lt, a3]
  split
  · next hpos => rw [a4 hpos]
  · rfl

/-- The loop invariant: from a loop head with `x ≤ r`,
`err = x*x + y*y - r*r + 2*y` in the range of `int` and, if the loop is
entered, `err ≤ 0`, the loop ends within `x - y + 1` iterations and every
iteration that plots has `0 ≤ y ≤ x ≤ r`, the same equation and `err ≤ 0`. -/
theorem drawCircleTrace_invariant (r : Int) (hr0 : 0 ≤ r) (hr : r ≤ 1073741826) (fuel : Nat) :
    ∀ x y err : Int, 0 ≤ y → x ≤ r →
      ((y = 0 ∧ err = 0 ∧ x = r) ∨ (1 ≤ y ∧ x ≤ r - 1)) →
      -2147483648 ≤ err →
      err = x * x + y * y - r * r + 2 * y → (y ≤ x → err ≤ 0) →
      (x - y + 1).toNat ≤ fuel →
      ∃ trace, drawCircleTrace fuel x y err = some trace ∧
        trace.length ≤ (x - y + 1).toNat ∧
        ∀ st ∈ trace, 0 ≤ st.2.1 ∧ st.2.1 ≤ st.1 ∧ st.1 ≤ r ∧
          st.2.2 = st.1 * st.1 + st.2.1 * st.2.1 - r * r + 2 * st.2.1 ∧ st.2.2 ≤ 0 := by
  induction fuel with
  | zero =>
    intro x y err _ _ _ _ _ _ hf
    have : ¬ x ≥ y := by omega
    exact ⟨[], by simp [drawCircleTrace, this], by simp, by simp⟩
  | succ n ih =>
    intro x y err hy hx hphase hlo heq hle hf
    by_cases hxy : x ≥ y
    · have herr0 : err ≤ 0 := hle hxy
      have hy2 : y ≤ 1073741822 :=
        drawCircle_y_small r x y hr0 hr hy hxy (by rw [← heq]; exact herr0)
      have hstep := drawCircleStep_exact x y err hy hy2 hxy (by omega) herr0 hlo
        (by intro hpos; rcases hphase with ⟨h1, h2, h3⟩ | ⟨h1, h2⟩ <;> omega)
      by_cases hpos : 0 < err + (2 * (y + 1) + 1)
      · rw [if_pos hpos] at hstep
        obtain ⟨t, ht, hlen, hall⟩ := ih (x - 1) (y + 1)
          (err + (2 * (y + 1) + 1) - (2 * (x - 1) + 1))
          (by omega) (by omega) (Or.inr ⟨by omega, by omega⟩)
          (by rcases hphase with ⟨h1, h2, h3⟩ | ⟨h1, h2⟩ <;> omega)
          (by rw [heq]; ring) (fun _ => by omega) (by omega)
        refine ⟨(x, y, err) :: t, by simp [drawCircleTrace, hxy, hstep, ht], ?_, ?_⟩
        · simp only [List.length_cons]; omega
        · intro st hst
          rcases List.mem_cons.mp hst with h | h
          · subst h; exact ⟨hy, hxy, hx, heq, herr0⟩
          · exact hall st h
      · rw [if_neg hpos] at hstep
        obtain ⟨t, ht, hlen, hall⟩ := ih x (y + 1) (err + (2 * (y + 1) + 1))
          (by omega) hx
          (Or.inr ⟨by omega, by rcases hphase with ⟨h1, h2, h3⟩ | ⟨h1, h2⟩ <;> omega⟩)
          (by omega) (by rw [heq]; ring) (fun _ => by omega) (by omega)
        refine ⟨(x, y, err) :: t, by simp [drawCircleTrace, hxy, hstep, ht], ?_, ?_⟩
        · simp only [List.length_cons]; omega
        · intro st hst
          rcases List.mem_cons.mp hst with h | h
          · subst h; exact ⟨hy, hxy, hx, heq, herr0⟩
          · exact hall st h
    · exact ⟨[], by simp [drawCircleTrace, hxy], by simp, by simp⟩

/-- Each of the eight points of an iteration, when its coordinates stay in
the range of `int`, is as far from the centre as `(x, y)` is from the
origin. -/
theorem circlePoints_dist (cx cy r x y : Int) (hy : 0 ≤ y) (hyx : y ≤ x) (hx : x ≤ r)
    (hcx : -2147483648 ≤ cx - r ∧ cx + r ≤ 2147483647)
    (hcy : -2147483648 ≤ cy - r ∧ cy + r ≤ 2147483647)
    (p : SDL_Point) (hp : p ∈ circlePoints cx cy x y) :
    (p.x - cx) * (p.x - cx) + (p.y - cy) * (p.y - cy) = x * x + y * y := by
  have e1 : wrapInt32 (cx + x) = cx + x := wrapInt32_of_inRange _ (by omega) (by omega)
  have e2 : wrapInt32 (cx - x) = cx - x := wrapInt32_of_inRange _ (by omega) (by omega)
  have e3 : wrapInt32 (cx + y) = cx + y := wrapInt32_of_inRange _ (by omega) (by omega)
  have e4 : wrapInt32 (cx - y) = cx - y := wrapInt32_of_inRange _ (by omega) (by omega)
  have e5 : wrapInt32 (cy + x) = cy + x := wrapInt32_of_inRange _ (by omega) (by omega)
  have e6 : wrapInt32 (cy - x) = cy - x := wrapInt32_of_inRange _ (by omega) (by omega)
  have e7 : wrapInt32 (cy + y) = cy + y := wrapInt32_of_inRange _ (by omega) (by omega)
  have e8 : wrapInt32 (cy - y) = cy - y := wrapInt32_of_inRange _ (by omega) (by omega)
  simp only [circlePoints, e1, e2, e3, e4, e5, e6, e7, e8, List.mem_cons, List.mem_singleton,
    List.not_mem_nil, or_false] at hp
  rcases hp with h | h | h | h | h | h | h | h <;> subst h <;> simp only [] <;> ring

/-- C11, amended: for every radius `0 ≤ r ≤ 1073741826` and every centre with
`cx - r`, `cx + r`, `cy - r` and `cy + r` in the range of `int`, the loop of
`drawCircle` ends after at most `r + 1` iterations (any fuel from `r + 1` on
gives the same points); at the head of every iteration that plots the loop
variables satisfy `err = x*x + y*y - r*r + 2*y` and `err ≤ 0`; the points
plotted are the eight points of those iterations; and every plotted point
`(cx + dx, cy + dy)` has `dx*dx + dy*dy ≤ r*r`. -/
theorem drawCircle_inside_circle (cx cy r : Int) (hr0 : 0 ≤ r) (hr : r ≤ 1073741826)
    (hcx : -2147483648 ≤ cx - r ∧ cx + r ≤ 2147483647)
    (hcy : -2147483648 ≤ cy - r ∧ cy + r ≤ 2147483647) :
    (∀ k, drawCircleLoop cx cy (r.toNat + 1 + k) r 0 0 = some (drawCircle cx cy r)) ∧
    (∀ p ∈ drawCircle cx cy r,
      (p.x - cx) * (p.x - cx) + (p.y - cy) * (p.y - cy) ≤ r * r) ∧
    (∃ trace, (∀ k, drawCircleTrace (r.toNat + 1 + k) r 0 0 = some trace) ∧
      drawCircle cx cy r = trace.flatMap (fun st => circlePoints cx cy st.1 st.2.1) ∧
      trace.length ≤ r.toNat + 1 ∧
      ∀ st ∈ trace,
        st.2.2 = st.1 * st.1 + st.2.1 * st.2.1 - r * r + 2 * st.2.1 ∧ st.2.2 ≤ 0) := by
  obtain ⟨trace, htrace, hlen, hall⟩ := drawCircleTrace_invariant r hr0 hr (r.toNat + 1) r 0 0
    (le_refl 0) (le_refl r) (Or.inl ⟨rfl, rfl, rfl⟩) (by decide) (by ring) (fun _ => le_refl 0)
    (by omega)
  have hmono : ∀ k, drawCircleTrace (r.toNat + 1 + k) r 0 0 = some trace :=
    fun k => drawCircleTrace_mono k _ _ _ _ _ htrace
  have hdraw : drawCircle cx cy r =
      trace.flatMap (fun st => circlePoints cx cy st.1 st.2.1) := by
    rw [drawCircle, drawCircleLoop_eq_trace, htrace]
    rfl
  refine ⟨fun k => ?_, fun p hp => ?_, trace, hmono, hdraw, by omega,
    fun st hst => (hall st hst).2.2.2⟩
  · rw [drawCircleLoop_eq_trace, hmono k, hdraw]
    rfl
  · rw [hdraw, List.mem_flatMap] at hp
    obtain ⟨st, hst, hpst⟩ := hp
    obtain ⟨hy, hyx, hx, heq, hle⟩ := hall st hst
    rw [circlePoints_dist cx cy r st.1 st.2.1 hy hyx hx hcx hcy p hpst]
    linarith

/-- C11, amended, at centre `(10, 20)` and radius 3. -/
theorem drawCircle_inside_circle_witness :
    (0 : Int) ≤ 3 ∧ (3 : Int) ≤ 1073741826 ∧
    (∀ k, drawCircleLoop 10 20 (4 + k) 3 0 0 = some (drawCircle 10 20 3)) ∧
    (∀ p ∈ drawCircle 10 20 3, (p.x - 10) * (p.x - 10) + (p.y - 20) * (p.y - 20) ≤ 3 * 3) :=
  ⟨by decide, by decide,
   (drawCircle_inside_circle 10 20 3 (by decide) (by decide) (by decide) (by decide)).1,
   (drawCircle_inside_circle 10 20 3 (by decide) (by decide) (by decide) (by decide)).2.1⟩

/-- With radius 1073741827 the second iteration of the loop starts from
`err = 2147483646`: the subtraction of `2*x + 1` has left the range of
`int`. -/
theorem drawCircleTrace_second (n : Nat) (trace : List (Int × Int × Int))
    (h : drawCircleTrace (n + 1 + 1) 1073741827 0 0 = some trace) :
    (1073741826, 1, 2147483646) ∈ trace := by
  have hstep : drawCircleStep 1073741827 0 0 = (1073741826, 1, 2147483646) := by decide
  have h1 : (1073741827 : Int) ≥ 0 := by decide
  have h2 : (1073741826 : Int) ≥ 1 := by decide
  rw [drawCircleTrace, if_pos h1, hstep, drawCircleTrace, if_pos h2] at h
  simp only [Option.map_eq_some', Option.map_map] at h
  obtain ⟨rest, _, hrest⟩ := h
  rw [← hrest]
  simp

/-- C11 as stated fails at both ends of the range of `int`.  With centre
`(2147483647, 0)` and radius 1 the first point, at `centerX + x`, is plotted
at `x = -2147483648`, far outside the circle.  With radius 1073741827 the
loop ends, and its second iteration plots with `err = 2147483646 > 0`. -/
theorem drawCircle_int_overflow :
    (¬ ∀ p ∈ drawCircle 2147483647 0 1,
      (p.x - 2147483647) * (p.x - 2147483647) + (p.y - 0) * (p.y - 0) ≤ 1 * 1) ∧
    (∃ trace, drawCircleTrace 1073741828 1073741827 0 0 = some trace ∧
      ∃ st ∈ trace, st = (1073741826, 1, 2147483646) ∧ st.2.1 ≤ st.1 ∧ ¬ st.2.2 ≤ 0) := by
  refine ⟨by decide, ?_⟩
  obtain ⟨t, ht, _⟩ := drawCircle_ends 0 0 1073741827 (by decide) (by decide)
  exact ⟨_, ht, (1073741826, 1, 2147483646), drawCircleTrace_second 1073741826 _ ht, rfl,
    by decide, by decide⟩

end Paint
